import Mathlib

/-!
Verification development for the moonmining extraction tracking app.

The definitions below are a shallow embedding of the code in
src/moonmining (models.py, core.py, constants.py):

* prices, ore metadata and entity resolution are external collaborators
  (eveuniverse / app_utils / ESI): they appear as fields of `EveEnv`;
* floats are modelled as rationals;
* Django querysets are modelled as lists; get_or_create is modelled as
  find-or-append keyed on the same fields as the source;
* exceptions that the source catches are modelled by `Option` / explicit
  result types at the catch site.
-/

/-- Rarity class of an ore (models.py, OreRarityClass: IntegerChoices with
values 0, 4, 8, 16, 32, 64). -/
inductive OreRarityClass where
  | NONE
  | R4
  | R8
  | R16
  | R32
  | R64
deriving DecidableEq, Repr

/-- Numeric value of the IntegerChoices member; Python compares and takes
max over these values. -/
def OreRarityClass.val : OreRarityClass → Nat
  | .NONE => 0
  | .R4 => 4
  | .R8 => 8
  | .R16 => 16
  | .R32 => 32
  | .R64 => 64

/-- Eve group ids from constants.py. -/
def EVE_GROUP_ID_UBIQUITOUS_MOON_ASTEROIDS : Nat := 1884
def EVE_GROUP_ID_COMMON_MOON_ASTEROIDS : Nat := 1920
def EVE_GROUP_ID_UNCOMMON_MOON_ASTEROIDS : Nat := 1921
def EVE_GROUP_ID_RARE_MOON_ASTEROIDS : Nat := 1922
def EVE_GROUP_ID_EXCEPTIONAL_MOON_ASTEROIDS : Nat := 1923
def EVE_TYPE_ID_MOON : Nat := 14

/-- OreRarityClass.from_eve_group_id: map the five moon asteroid groups to
rarity classes, anything else (KeyError branch) to NONE. -/
def OreRarityClass.from_eve_group_id (eve_group_id : Nat) : OreRarityClass :=
  if eve_group_id = EVE_GROUP_ID_UBIQUITOUS_MOON_ASTEROIDS then .R4
  else if eve_group_id = EVE_GROUP_ID_COMMON_MOON_ASTEROIDS then .R8
  else if eve_group_id = EVE_GROUP_ID_UNCOMMON_MOON_ASTEROIDS then .R16
  else if eve_group_id = EVE_GROUP_ID_RARE_MOON_ASTEROIDS then .R32
  else if eve_group_id = EVE_GROUP_ID_EXCEPTIONAL_MOON_ASTEROIDS then .R64
  else .NONE

/-- Quality class of an ore (models.py, OreQualityClass: TextChoices). -/
inductive OreQualityClass where
  | UNDEFINED
  | REGULAR
  | IMPROVED
  | EXCELLENT
deriving DecidableEq, Repr

/-- OreQualityClass.from_eve_type: the ore quality dogma attribute value
maps 1, 3, 5 to REGULAR, IMPROVED, EXCELLENT; a missing attribute
(ObjectDoesNotExist) or an unmapped value (KeyError) yields UNDEFINED.
The dogma attribute lookup itself is abstracted to the `Option Nat`
argument (already truncated by int()). -/
def OreQualityClass.from_eve_type (dogma_value : Option Nat) : OreQualityClass :=
  match dogma_value with
  | none => .UNDEFINED
  | some v =>
    if v = 1 then .REGULAR
    else if v = 3 then .IMPROVED
    else if v = 5 then .EXCELLENT
    else .UNDEFINED

/-- One material component of an ore type (eveuniverse EveTypeMaterial row:
material type and quantity per 100-unit reference batch). -/
structure EveTypeMaterial where
  material_type_id : Nat
  quantity : Nat
deriving DecidableEq, Repr

/-- The slice of an EveOreType that calc_refined_value reads: the unit
volume (a nullable float field) and the material breakdown. -/
structure EveOreTypeRec where
  volume : Option ℚ
  materials : List EveTypeMaterial
deriving DecidableEq, Repr

/-- External read-only reference data and collaborators, as consumed by
models.py: configured settings, the market price table, ore type records,
the ore quality dogma attribute per type, the eve group id per type, and
whether EveEntity resolution succeeds (False models the caught OSError). -/
structure EveEnv where
  MOONMINING_REPROCESSING_YIELD : ℚ
  MOONMINING_VOLUME_PER_MONTH : ℚ
  averagePrice : Nat → Option ℚ
  oreType : Nat → EveOreTypeRec
  dogmaValue : Nat → Option Nat
  eveGroupId : Nat → Nat
  resolveEntityOk : Nat → Bool

/-- EveOreType.calc_refined_value (models.py lines 151-172).
A falsy reprocessing_yield (None or 0) is replaced by the configured
default; a falsy unit volume (null or 0) short-circuits to 0; a material
whose market price row is missing (ObjectDoesNotExist / AttributeError,
modelled by none) or falsy is skipped. -/
def calc_refined_value (env : EveEnv) (ore : EveOreTypeRec) (volume : ℚ)
    (reprocessing_yield : Option ℚ) : ℚ :=
  let y : ℚ :=
    match reprocessing_yield with
    | none => env.MOONMINING_REPROCESSING_YIELD
    | some r => if r = 0 then env.MOONMINING_REPROCESSING_YIELD else r
  match ore.volume with
  | none => 0
  | some volume_per_unit =>
    if volume_per_unit = 0 then 0
    else
      let units := volume / volume_per_unit
      let r_units := units / 100
      ore.materials.foldl
        (fun acc m =>
          match env.averagePrice m.material_type_id with
          | none => acc
          | some price =>
            if price = 0 then acc
            else acc + price * (m.quantity : ℚ) * r_units * y)
        0

/-- The ore quality class of an ore type id, through the environment
(models.py EveOreType.quality_class). -/
def quality_class (env : EveEnv) (ore_type_id : Nat) : OreQualityClass :=
  OreQualityClass.from_eve_type (env.dogmaValue ore_type_id)

/-- One ExtractionProduct row: ore type id and extracted volume. -/
structure ExtractionProductRec where
  ore_type_id : Nat
  volume : ℚ
deriving DecidableEq, Repr

/-- ExtractionProduct.calc_value: ore_type.calc_refined_value at the
product volume with the default reprocessing yield (None passed). -/
def ExtractionProduct_calc_value (env : EveEnv) (p : ExtractionProductRec) : ℚ :=
  calc_refined_value env (env.oreType p.ore_type_id) p.volume none

/-- Extraction.calc_value: sum of the product value estimates.  The
ObjectDoesNotExist branch of the source cannot fire here because iterating
a list of product rows with total environment lookups cannot raise. -/
def Extraction_calc_value (env : EveEnv) (products : List ExtractionProductRec) : ℚ :=
  (products.map (fun p => ExtractionProduct_calc_value env p)).sum

/-- Extraction.calc_is_jackpot (models.py lines 634-644): all() over the
product quality classes compared with EXCELLENT.  The except
ObjectDoesNotExist branch returning None cannot fire here (iterating the
product list with total environment lookups cannot raise), so the result
is always `some`; in particular all([]) is True for an empty product set. -/
def calc_is_jackpot (env : EveEnv) (products : List ExtractionProductRec) :
    Option Bool :=
  some (products.all (fun p => quality_class env p.ore_type_id == OreQualityClass.EXCELLENT))

/-- One MoonProduct row: ore type id and fractional amount. -/
structure MoonProductRec where
  ore_type_id : Nat
  amount : ℚ
deriving DecidableEq, Repr

/-- Result of Moon.calc_rarity_class: Python max() raises ValueError on an
empty sequence, and only ObjectDoesNotExist is caught by the source, so
the ValueError escapes; the caught branch would return Python None. -/
inductive RarityCalcResult where
  | ok (r : OreRarityClass)
  | valueError
deriving DecidableEq, Repr

/-- Maximum of a nonempty list of rarity classes by IntegerChoices value,
as Python max() computes it. -/
def rarityMax (head : OreRarityClass) (rest : List OreRarityClass) : OreRarityClass :=
  rest.foldl (fun a b => if a.val < b.val then b else a) head

/-- Moon.calc_rarity_class (models.py lines 244-255): max over the
products of the rarity class of the ore type group; max([]) raises
ValueError which is not caught (only ObjectDoesNotExist is). -/
def calc_rarity_class (env : EveEnv) (products : List MoonProductRec) :
    RarityCalcResult :=
  match products.map (fun p => OreRarityClass.from_eve_group_id (env.eveGroupId p.ore_type_id)) with
  | [] => .valueError
  | r :: rs => .ok (rarityMax r rs)

/-! ## Time conversion (core.py, helpers, app_utils) -/

/-- The external app_utils converter ldap_time_2_datetime, as the spec
describes the collaborator: a payload time is a count of Windows NT /
LDAP 100-nanosecond ticks, converted to an absolute instant (seconds,
as a rational) with sub-second precision preserved. -/
def ldap_time_2_datetime (ticks : Nat) : ℚ :=
  (ticks : ℚ) / 10000000 - 11644473600

/-- Modelled from the spec: helpers.round_seconds -- the module
src/moonmining/helpers.py is not part of the sources, only its caller
core.py is.  The spec says payload instants are rounded down to whole
seconds, so this is the floor to a whole second. -/
def round_seconds (instant : ℚ) : ℚ :=
  ((⌊instant⌋ : ℤ) : ℚ)

/-- Status of a CalculatedExtraction (core.py). -/
inductive CalculatedExtractionStatus where
  | STARTED
  | CANCELED
  | READY
  | COMPLETED
  | UNDEFINED
deriving DecidableEq, Repr

/-- CalculatedExtraction (core.py lines 9-34): an extraction computed
from moon mining notifications.  Nothing else under src/moonmining
imports this dataclass. -/
structure CalculatedExtraction where
  refinery_id : Nat
  ready_time : ℚ
  status : CalculatedExtractionStatus
  started_by : Option Nat
  auto_time : Option ℚ
  canceled_at : Option ℚ
  canceled_by : Option Nat
  finished_at : Option ℚ
  fractured_at : Option ℚ
  fractured_by : Option Nat
  products : Option (List ExtractionProductRec)
deriving DecidableEq, Repr

/-- CalculatedExtraction.post_init (core.py lines 33-34): dataclass
initialization ends by replacing ready_time with round_seconds of it. -/
def CalculatedExtraction.post_init (c : CalculatedExtraction) : CalculatedExtraction :=
  { c with ready_time := round_seconds c.ready_time }

/-! ## Extraction lifecycle reconstruction (models.py, Owner.update_extractions_from_esi) -/

/-- The notification types that _fetch_moon_notifications_from_esi keeps. -/
inductive NotifType where
  | started
  | cancelled
  | finished
  | autoFracture
  | laserFired
deriving DecidableEq, Repr

/-- One moon mining notification after the YAML text parse: timestamp,
type discriminator, and the payload fields that
Owner.update_extractions_from_esi reads.  ready_time and auto_time are
LDAP ticks; ore_volume_by_type is the oreVolumeByType mapping in
insertion order; fields that a given type does not carry are ignored by
the fold exactly as the source never reads them. -/
structure Notification where
  timestamp : Nat
  notif_type : NotifType
  structure_id : Nat
  moon_id : Nat
  ready_time : Nat
  auto_time : Nat
  started_by : Option Nat
  ore_volume_by_type : List (Nat × ℚ)
deriving DecidableEq, Repr

/-- One persisted Extraction row with its ExtractionProduct rows.  The
functional key is (refinery_id, ready_time); value and is_jackpot are the
cached derived fields written by update_calculated_properties. -/
structure ExtractionRec where
  refinery_id : Nat
  ready_time : ℚ
  auto_time : ℚ
  started_by : Option Nat
  value : Option ℚ
  is_jackpot : Option Bool
  products : List ExtractionProductRec
deriving DecidableEq, Repr

/-- The functional primary key of an extraction row. -/
def ExtractionRec.key (e : ExtractionRec) : Nat × ℚ :=
  (e.refinery_id, e.ready_time)

/-- One persisted Refinery row (the fields the reconstructor touches). -/
structure RefineryRec where
  id : Nat
  name : String
  eve_type_id : Nat
  moon : Option Nat
deriving DecidableEq, Repr

/-- The persisted state one owner mutates: its refineries and their
extractions. -/
structure OwnerState where
  refineries : List RefineryRec
  extractions : List ExtractionRec
deriving DecidableEq, Repr

/-- Refinery.objects.get(id=structure_id), returning the first row with
that id (DoesNotExist becomes none). -/
def refineryLookup : List RefineryRec → Nat → Option RefineryRec
  | [], _ => none
  | r :: rest, sid => if r.id = sid then some r else refineryLookup rest sid

/-- Refinery.update_moon_from_eve_id: get_or_create the moon for the eve
moon id and link the refinery to it (the Moon get_or_create itself is
idempotent and key-only, so the observable effect is the link). -/
def update_moon_from_eve_id (refs : List RefineryRec) (sid moonId : Nat) :
    List RefineryRec :=
  refs.map (fun r => if r.id = sid then { r with moon := some moonId } else r)

/-- Extraction.objects lookup by the functional key, first row wins. -/
def lookupExtraction : List ExtractionRec → (Nat × ℚ) → Option ExtractionRec
  | [], _ => none
  | e :: rest, k => if e.key = k then some e else lookupExtraction rest k

/-- ExtractionProduct.objects.get_or_create keyed on (extraction,
ore_type) with the volume as a create-only default. -/
def addProduct (ps : List ExtractionProductRec) (oid : Nat) (vol : ℚ) :
    List ExtractionProductRec :=
  if ps.any (fun q => q.ore_type_id == oid) then ps
  else ps ++ [{ ore_type_id := oid, volume := vol }]

/-- The product loop of the MoonminingExtractionStarted branch. -/
def addProducts (ps : List ExtractionProductRec) (ores : List (Nat × ℚ)) :
    List ExtractionProductRec :=
  ores.foldl (fun acc o => addProduct acc o.1 o.2) ps

/-- Extraction.update_calculated_properties: recompute and store value and
is_jackpot from the current product rows. -/
def update_calculated_properties (env : EveEnv) (e : ExtractionRec) : ExtractionRec :=
  { e with
    value := some (Extraction_calc_value env e.products)
    is_jackpot := calc_is_jackpot env e.products }

/-- The startedBy resolution: a missing payload field stays None, a
present one is resolved through EveEntity.objects.get_or_create_esi whose
OSError is caught and also yields None. -/
def resolve_started_by (env : EveEnv) (started_by : Option Nat) : Option Nat :=
  match started_by with
  | none => none
  | some i => if env.resolveEntityOk i then some i else none

/-- The natural key a Started notification upserts under. -/
def notifKey (n : Notification) : Nat × ℚ :=
  (n.structure_id, ldap_time_2_datetime n.ready_time)

/-- Merge branch of the Started upsert: get_or_create found the row, so
defaults are not applied; missing products are added, then the derived
fields are refreshed. -/
def startedMerge (env : EveEnv) (n : Notification) (e : ExtractionRec) : ExtractionRec :=
  update_calculated_properties env
    { e with products := addProducts e.products n.ore_volume_by_type }

/-- Create branch of the Started upsert: the row is created with the
defaults, the product rows are added, then the derived fields are
refreshed. -/
def startedCreate (env : EveEnv) (n : Notification) : ExtractionRec :=
  update_calculated_properties env
    { refinery_id := n.structure_id
      ready_time := ldap_time_2_datetime n.ready_time
      auto_time := ldap_time_2_datetime n.auto_time
      started_by := resolve_started_by env n.started_by
      value := none
      is_jackpot := none
      products := addProducts [] n.ore_volume_by_type }

/-- The whole MoonminingExtractionStarted branch on the extraction table:
Extraction.objects.get_or_create keyed on (refinery, ready_time), the
product get_or_create loop, and update_calculated_properties. -/
def upsertStarted (env : EveEnv) (es : List ExtractionRec) (n : Notification) :
    List ExtractionRec :=
  if es.any (fun e => decide (e.key = notifKey n)) then
    es.map (fun e => if e.key = notifKey n then startedMerge env n e else e)
  else
    es ++ [startedCreate env n]

/-- extraction.delete(): the row with that key disappears and its product
rows cascade away with it. -/
def deleteExtraction : List ExtractionRec → (Nat × ℚ) → List ExtractionRec
  | [], _ => []
  | e :: rest, k =>
    if e.key = k then deleteExtraction rest k else e :: deleteExtraction rest k

/-- The last_extraction_started dict: structure id, key of the extraction
instance the dict holds, and whether that instance is still persisted
(False after extraction.delete() set its pk to None). -/
def LastStartedDict : Type := List (Nat × ((Nat × ℚ) × Bool))

/-- Dict read: first binding for the structure id. -/
def dictGet (d : LastStartedDict) (sid : Nat) : Option ((Nat × ℚ) × Bool) :=
  (d.find? (fun p => p.1 == sid)).map Prod.snd

/-- Dict write for a structure id. -/
def dictSet (d : LastStartedDict) (sid : Nat) (v : (Nat × ℚ) × Bool) :
    LastStartedDict :=
  (sid, v) :: d.filter (fun p => !(p.1 == sid))

/-- Dict del for a structure id. -/
def dictDel (d : LastStartedDict) (sid : Nat) : LastStartedDict :=
  d.filter (fun p => !(p.1 == sid))

/-- The loop state of Owner.update_extractions_from_esi: the persisted
owner state plus the local last_extraction_started dict. -/
structure ProcState where
  st : OwnerState
  last_extraction_started : LastStartedDict

/-- One iteration of the notification loop (models.py lines 441-494).
none models the ValueError that Django Model.delete raises when the
Cancelled branch calls delete() on an instance whose pk was already
cleared by a previous delete. -/
def process_notification (env : EveEnv) (ps : ProcState) (n : Notification) :
    Option ProcState :=
  let refinery := refineryLookup ps.st.refineries n.structure_id
  let refineries :=
    match refinery with
    | some r =>
      if r.moon = none then
        update_moon_from_eve_id ps.st.refineries n.structure_id n.moon_id
      else ps.st.refineries
    | none => ps.st.refineries
  match n.notif_type with
  | .started =>
    match refinery with
    | none => some { ps with st := { ps.st with refineries := refineries } }
    | some _ =>
      some
        { st :=
            { refineries := refineries
              extractions := upsertStarted env ps.st.extractions n }
          last_extraction_started :=
            dictSet ps.last_extraction_started n.structure_id (notifKey n, true) }
  | .cancelled =>
    match dictGet ps.last_extraction_started n.structure_id with
    | none => some { ps with st := { ps.st with refineries := refineries } }
    | some (k, alive) =>
      if alive then
        some
          { st :=
              { refineries := refineries
                extractions := deleteExtraction ps.st.extractions k }
            last_extraction_started :=
              dictSet ps.last_extraction_started n.structure_id (k, false) }
      else none
  | .finished =>
    match dictGet ps.last_extraction_started n.structure_id with
    | some _ =>
      some
        { st := { ps.st with refineries := refineries }
          last_extraction_started :=
            dictDel ps.last_extraction_started n.structure_id }
    | none => some { ps with st := { ps.st with refineries := refineries } }
  | .autoFracture => some { ps with st := { ps.st with refineries := refineries } }
  | .laserFired => some { ps with st := { ps.st with refineries := refineries } }

/-- The notification loop. -/
def run_notifications (env : EveEnv) : ProcState → List Notification → Option ProcState
  | ps, [] => some ps
  | ps, n :: rest =>
    match process_notification env ps n with
    | none => none
    | some ps2 => run_notifications env ps2 rest

/-- Stable insertion of a notification after every earlier notification
with a smaller or equal timestamp. -/
def insertByTimestamp (n : Notification) : List Notification → List Notification
  | [] => [n]
  | m :: rest =>
    if m.timestamp ≤ n.timestamp then m :: insertByTimestamp n rest
    else n :: m :: rest

/-- sorted(notifications, key=lambda k: k["timestamp"]): a stable sort by
timestamp, ties keeping input order. -/
def sortedByTimestamp (l : List Notification) : List Notification :=
  l.foldl (fun acc n => insertByTimestamp n acc) []

/-- Owner.update_extractions_from_esi (models.py lines 427-494) on an
already fetched notification list: sort by timestamp, fold the loop with
an empty last_extraction_started dict, return the persisted state (none
when the loop raised). -/
def update_extractions_from_esi (env : EveEnv) (st : OwnerState)
    (notifications : List Notification) : Option OwnerState :=
  (run_notifications env ⟨st, []⟩ (sortedByTimestamp notifications)).map ProcState.st

/-! ## Refinery updates (models.py, Owner.update_refineries_from_esi) -/

/-- The structure details ESI returns for one structure id. -/
structure StructureInfo where
  name : String
  type_id : Nat
  solar_system_id : Nat
  pos_x : ℚ
  pos_y : ℚ
  pos_z : ℚ
deriving DecidableEq, Repr

/-- A celestial returned by EveSolarSystem.nearest_celestial. -/
structure Celestial where
  eve_type_id : Nat
  eve_object_id : Nat
deriving DecidableEq, Repr

/-- The external collaborators of the refinery update: the structure
details fetch and the nearest celestial lookup; Except.error models the
OSError both try blocks catch. -/
structure StructureEnv where
  fetchStructureInfo : Nat → Except Unit StructureInfo
  nearest_celestial : Nat → ℚ → ℚ → ℚ → Except Unit (Option Celestial)

/-- Refinery.objects.update_or_create(id=structure_id, defaults=...):
update name, eve_type and owner of the existing row, or create it with
moon defaulting to null. -/
def update_or_create_refinery (refs : List RefineryRec) (sid : Nat)
    (info : StructureInfo) : List RefineryRec :=
  if refs.any (fun r => r.id == sid) then
    refs.map (fun r =>
      if r.id = sid then { r with name := info.name, eve_type_id := info.type_id }
      else r)
  else
    refs ++ [{ id := sid, name := info.name, eve_type_id := info.type_id, moon := none }]

/-- Refinery.update_moon_from_structure_info (models.py lines 553-578):
look up the nearest celestial at the structure position; a caught OSError
leaves the state unchanged (return False path); a moon-typed celestial
links the refinery to that moon. -/
def update_moon_from_structure_info (senv : StructureEnv) (refs : List RefineryRec)
    (sid : Nat) (info : StructureInfo) : List RefineryRec :=
  match senv.nearest_celestial info.solar_system_id info.pos_x info.pos_y info.pos_z with
  | .error _ => refs
  | .ok nearest =>
    match nearest with
    | some c =>
      if c.eve_type_id = EVE_TYPE_ID_MOON then
        refs.map (fun r => if r.id = sid then { r with moon := some c.eve_object_id } else r)
      else refs
    | none => refs

/-- Owner._update_or_create_refinery_from_esi (models.py lines 407-425):
fetch the structure details; a caught OSError returns with no state
change; otherwise upsert the refinery and, when it has no moon link,
resolve the moon from the structure position. -/
def update_or_create_refinery_from_esi (senv : StructureEnv)
    (refs : List RefineryRec) (sid : Nat) : List RefineryRec :=
  match senv.fetchStructureInfo sid with
  | .error _ => refs
  | .ok info =>
    let refs2 := update_or_create_refinery refs sid info
    match refineryLookup refs2 sid with
    | some r =>
      if r.moon = none then update_moon_from_structure_info senv refs2 sid info
      else refs2
    | none => refs2

/-- Owner.update_refineries_from_esi (models.py lines 378-389) after the
structure list fetch: update or create each listed refinery, then delete
the refineries that no longer appear in the list. -/
def update_refineries_from_esi (senv : StructureEnv) (refs : List RefineryRec)
    (structure_ids : List Nat) : List RefineryRec :=
  (structure_ids.foldl (fun acc sid => update_or_create_refinery_from_esi senv acc sid) refs).filter
    (fun r => structure_ids.contains r.id)

/-! ## Demo data used by concrete evaluations and witnesses -/

/-- A small concrete environment: one priced ore (45506) with three
materials of which only two (34, 35) have a market price, one excellent
quality ore type (46281), one improved (46280). -/
def demoEnv : EveEnv where
  MOONMINING_REPROCESSING_YIELD := 7/10
  MOONMINING_VOLUME_PER_MONTH := 1000000
  averagePrice := fun i => if i = 34 then some 5 else if i = 35 then some 10 else none
  oreType := fun i =>
    if i = 45506 then
      { volume := some 10,
        materials := [⟨34, 100⟩, ⟨35, 50⟩, ⟨36, 20⟩] }
    else { volume := none, materials := [] }
  dogmaValue := fun i => if i = 46281 then some 5 else if i = 46280 then some 3 else none
  eveGroupId := fun i => if i = 45506 then 1922 else if i = 46281 then 1884 else 0
  resolveEntityOk := fun _ => true

/-- A state with one refinery, id 1, no moon link, no extractions. -/
def demoState : OwnerState where
  refineries := [{ id := 1, name := "R", eve_type_id := 35835, moon := none }]
  extractions := []

/-- A MoonminingExtractionStarted notification for refinery 1; the ready
time ticks convert to instant 0. -/
def startedNotifDemo : Notification where
  timestamp := 1
  notif_type := .started
  structure_id := 1
  moon_id := 40161708
  ready_time := 116444736000000000
  auto_time := 116444844000000000
  started_by := some 1001
  ore_volume_by_type := [(45506, 1000)]

/-- A MoonminingExtractionCancelled notification for refinery 1, after
the started one. -/
def cancelledNotifDemo : Notification where
  timestamp := 2
  notif_type := .cancelled
  structure_id := 1
  moon_id := 40161708
  ready_time := 0
  auto_time := 0
  started_by := some 1002
  ore_volume_by_type := []

/-! ## Valuation engine theorems -/

/-- Helper: the material accumulation loop of calc_refined_value equals
the starting accumulator plus the sum of the per-material contributions,
a missing or zero price contributing zero. -/
theorem calc_refined_fold_eq (env : EveEnv) (ru y : ℚ)
    (ms : List EveTypeMaterial) (acc : ℚ) :
    ms.foldl
      (fun acc m =>
        match env.averagePrice m.material_type_id with
        | none => acc
        | some price =>
          if price = 0 then acc
          else acc + price * (m.quantity : ℚ) * ru * y)
      acc
    = acc + (ms.map (fun m =>
        match env.averagePrice m.material_type_id with
        | none => (0 : ℚ)
        | some price => price * (m.quantity : ℚ) * ru * y)).sum := by
  induction ms generalizing acc with
  | nil => simp
  | cons m rest ih =>
    simp only [List.foldl_cons, List.map_cons, List.sum_cons]
    cases h : env.averagePrice m.material_type_id with
    | none => simp only [ih]; ring
    | some p =>
      by_cases hp : p = 0
      · subst hp; simp only [ih, if_pos]; ring
      · simp only [ih, if_neg hp]; ring

/-- C7: for an ore type with non-zero unit volume and a non-zero explicit
yield factor, calc_refined_value is the sum over the material components
of price times quantity times (volume / unitVolume / 100) times the yield
factor, a material with a missing price contributing exactly zero. -/
theorem claim_C7_refined_value_sum (env : EveEnv) (ore : EveOreTypeRec)
    (v y u : ℚ) (hu : ore.volume = some u) (hu0 : u ≠ 0) (hy : y ≠ 0) :
    calc_refined_value env ore v (some y) =
      (ore.materials.map (fun m =>
        match env.averagePrice m.material_type_id with
        | none => (0 : ℚ)
        | some price => price * (m.quantity : ℚ) * (v / u / 100) * y)).sum := by
  unfold calc_refined_value
  rw [hu]
  simp only [if_neg hy, if_neg hu0]
  rw [calc_refined_fold_eq]
  ring

/-- Witness for C7 at a concrete ore: three materials, two priced, one
missing; the value is the sum of the two priced contributions. -/
theorem claim_C7_witness :
    calc_refined_value demoEnv (demoEnv.oreType 45506) 1000 (some (1/2)) =
      (((demoEnv.oreType 45506).materials.map (fun m =>
        match demoEnv.averagePrice m.material_type_id with
        | none => (0 : ℚ)
        | some price => price * (m.quantity : ℚ) * (1000 / 10 / 100) * (1/2))).sum) :=
  claim_C7_refined_value_sum demoEnv (demoEnv.oreType 45506) 1000 (1/2) 10
    (by with_unfolding_all decide) (by with_unfolding_all decide)
    (by with_unfolding_all decide)

/-- C8: an ore type whose unit volume is zero is priced at zero for every
volume and yield argument; the division by the unit volume is never
reached. -/
theorem claim_C8_zero_unit_volume (env : EveEnv) (ore : EveOreTypeRec)
    (v : ℚ) (ry : Option ℚ) (h : ore.volume = some 0) :
    calc_refined_value env ore v ry = 0 := by
  unfold calc_refined_value
  rw [h]
  simp

/-- Witness for C8 at a concrete ore with unit volume zero. -/
theorem claim_C8_witness :
    calc_refined_value demoEnv { volume := some 0, materials := [⟨34, 100⟩] }
      123456 (some (7/10)) = 0 :=
  claim_C8_zero_unit_volume demoEnv { volume := some 0, materials := [⟨34, 100⟩] }
    123456 (some (7/10)) rfl

/-- C10: a reprocessing_yield of 0 is treated exactly like None (the
configured default is substituted), a non-zero explicit yield is used as
given (the configured default is not consulted), and with the default
substituted an explicit 0 yield can still produce a non-zero value. -/
theorem claim_C10_yield_default_substitution :
    (∀ env ore v, calc_refined_value env ore v (some 0) =
      calc_refined_value env ore v none) ∧
    (∀ env ore v y d, y ≠ 0 →
      calc_refined_value { env with MOONMINING_REPROCESSING_YIELD := d } ore v (some y) =
        calc_refined_value env ore v (some y)) ∧
    calc_refined_value demoEnv (demoEnv.oreType 45506) 1000 (some 0) ≠ 0 := by
  refine ⟨fun env ore v => ?_, fun env ore v y d hy => ?_, ?_⟩
  · unfold calc_refined_value
    simp
  · unfold calc_refined_value
    simp only [if_neg hy]
  · with_unfolding_all decide

/-- Witness for C10: the non-zero explicit yield conjunct applied at a
concrete environment, ore, volume and yield. -/
theorem claim_C10_witness :
    calc_refined_value { demoEnv with MOONMINING_REPROCESSING_YIELD := 1/2 }
        (demoEnv.oreType 45506) 1000 (some (7/10)) =
      calc_refined_value demoEnv (demoEnv.oreType 45506) 1000 (some (7/10)) :=
  claim_C10_yield_default_substitution.2.1 demoEnv (demoEnv.oreType 45506) 1000
    (7/10) (1/2) (by with_unfolding_all decide)

/-- C2: for an empty product set calc_is_jackpot returns some true (the
all() of an empty list), not the unknown None that the claim and the
nullable is_jackpot field call for. -/
theorem claim_C2_empty_products_is_true :
    ∀ env : EveEnv, calc_is_jackpot env [] = some true ∧ calc_is_jackpot env [] ≠ none :=
  fun _ => ⟨rfl, by simp [calc_is_jackpot]⟩

/-! ## Rarity aggregation theorems -/

/-- Helper: the foldl that implements Python max over rarity classes
returns either its seed or a list element, is at least the seed, and is
at least every list element. -/
theorem rarityMax_spec (l : List OreRarityClass) (a : OreRarityClass) :
    (rarityMax a l = a ∨ rarityMax a l ∈ l) ∧
      a.val ≤ (rarityMax a l).val ∧
      ∀ b ∈ l, b.val ≤ (rarityMax a l).val := by
  induction l generalizing a with
  | nil => simp [rarityMax]
  | cons c l ih =>
    have hstep : rarityMax a (c :: l) = rarityMax (if a.val < c.val then c else a) l := rfl
    obtain ⟨hmem, hge, hall⟩ := ih (if a.val < c.val then c else a)
    rw [hstep]
    refine ⟨?_, ?_, ?_⟩
    · rcases hmem with hm | hm
      · rw [hm]
        by_cases hc : a.val < c.val
        · rw [if_pos hc]; exact Or.inr (List.mem_cons_self c l)
        · rw [if_neg hc]; exact Or.inl rfl
      · exact Or.inr (List.mem_cons_of_mem c hm)
    · refine le_trans ?_ hge
      by_cases hc : a.val < c.val
      · rw [if_pos hc]; exact le_of_lt hc
      · rw [if_neg hc]
    · intro b hb
      rcases List.mem_cons.mp hb with hb | hb
      · rw [hb]
        refine le_trans ?_ hge
        by_cases hc : a.val < c.val
        · rw [if_pos hc]
        · rw [if_neg hc]; exact le_of_not_lt hc
      · exact hall b hb

/-- C6 counterexample: for an empty product list calc_rarity_class does
not return the NONE tier; the uncaught Python ValueError of max([])
escapes instead. -/
theorem claim_C6_counterexample :
    calc_rarity_class demoEnv [] ≠ .ok OreRarityClass.NONE ∧
      calc_rarity_class demoEnv [] = .valueError := by
  exact ⟨by decide, rfl⟩

/-- C6 as amended: for a non-empty product list the computed rarity class
is the maximum, over the products, of the tier the ore type group maps to
(unmapped groups contributing NONE, so an all-unmapped list yields NONE);
for an empty product list the computation raises ValueError instead of
returning NONE. -/
theorem claim_C6_rarity_is_max (env : EveEnv) (ps : List MoonProductRec)
    (h : ps ≠ []) :
    ∃ r, calc_rarity_class env ps = .ok r ∧
      (∃ p ∈ ps, OreRarityClass.from_eve_group_id (env.eveGroupId p.ore_type_id) = r) ∧
      ∀ p ∈ ps, (OreRarityClass.from_eve_group_id (env.eveGroupId p.ore_type_id)).val ≤ r.val := by
  match ps with
  | [] => exact absurd rfl h
  | p :: rest =>
    have hcalc : calc_rarity_class env (p :: rest) =
        .ok (rarityMax (OreRarityClass.from_eve_group_id (env.eveGroupId p.ore_type_id))
          (rest.map (fun q => OreRarityClass.from_eve_group_id (env.eveGroupId q.ore_type_id)))) := rfl
    obtain ⟨hmem, hge, hall⟩ := rarityMax_spec
      (rest.map (fun q => OreRarityClass.from_eve_group_id (env.eveGroupId q.ore_type_id)))
      (OreRarityClass.from_eve_group_id (env.eveGroupId p.ore_type_id))
    refine ⟨_, hcalc, ?_, ?_⟩
    · rcases hmem with hm | hm
      · exact ⟨p, List.mem_cons_self p rest, hm.symm⟩
      · obtain ⟨q, hq, hqe⟩ := List.mem_map.mp hm
        exact ⟨q, List.mem_cons_of_mem p hq, hqe⟩
    · intro q hq
      rcases List.mem_cons.mp hq with hq | hq
      · subst hq; exact hge
      · exact hall _ (List.mem_map.mpr ⟨q, hq, rfl⟩)

/-- Witness for C6 at a concrete one-product list whose ore group maps to
R32. -/
theorem claim_C6_witness :
    (([⟨45506, 1⟩] : List MoonProductRec) ≠ []) ∧
      (∃ r, calc_rarity_class demoEnv [⟨45506, 1⟩] = .ok r ∧
        (∃ p ∈ ([⟨45506, 1⟩] : List MoonProductRec),
          OreRarityClass.from_eve_group_id (demoEnv.eveGroupId p.ore_type_id) = r) ∧
        ∀ p ∈ ([⟨45506, 1⟩] : List MoonProductRec),
          (OreRarityClass.from_eve_group_id (demoEnv.eveGroupId p.ore_type_id)).val ≤ r.val) :=
  ⟨by simp, claim_C6_rarity_is_max demoEnv [⟨45506, 1⟩] (by simp)⟩

/-! ## Concrete lifecycle evaluations -/

/-- C1: processing a Started notification alone persists one extraction,
and processing the identical Started followed by a Cancelled for the same
structure leaves no extraction at all: the Cancelled branch deletes the
row (and its product rows cascade away) instead of marking it CANCELED
with canceledAt / canceledBy set and products kept. -/
theorem claim_C1_cancel_deletes_extraction :
    (update_extractions_from_esi demoEnv demoState [startedNotifDemo]).map
        (fun s => s.extractions.length) = some 1 ∧
      (update_extractions_from_esi demoEnv demoState
          [startedNotifDemo, cancelledNotifDemo]).map (fun s => s.extractions) =
        some [] := by
  with_unfolding_all decide

/-- A second Started notification whose ready time is half a second after
the one of startedNotifDemo, landing in the same whole second. -/
def startedNotifJitterDemo : Notification :=
  { startedNotifDemo with timestamp := 3, ready_time := 116444736005000000 }

/-- C3 counterexample: the two ready times round down to the same whole
second, yet the reconstructor keys them apart (their converted instants
differ below one second) and persists two extractions; the claimed
second-granular identity key would have produced one. -/
theorem claim_C3_counterexample :
    round_seconds (ldap_time_2_datetime startedNotifDemo.ready_time) =
        round_seconds (ldap_time_2_datetime startedNotifJitterDemo.ready_time) ∧
      ldap_time_2_datetime startedNotifDemo.ready_time ≠
        ldap_time_2_datetime startedNotifJitterDemo.ready_time ∧
      (update_extractions_from_esi demoEnv demoState
          [startedNotifDemo, startedNotifJitterDemo]).map
        (fun s => s.extractions.length) = some 2 := by
  with_unfolding_all decide


/-! ## Upsert and delete lemmas for the extraction table -/

/-- A found extraction row has the key the lookup asked for. -/
theorem lookupExtraction_key {es : List ExtractionRec} {k : Nat × ℚ}
    {e : ExtractionRec} (h : lookupExtraction es k = some e) : e.key = k := by
  induction es with
  | nil => simp [lookupExtraction] at h
  | cons x rest ih =>
    by_cases hx : x.key = k
    · rw [lookupExtraction, if_pos hx] at h
      cases h
      exact hx
    · rw [lookupExtraction, if_neg hx] at h
      exact ih h

/-- startedMerge does not change the functional key. -/
theorem startedMerge_key (env : EveEnv) (n : Notification) (e : ExtractionRec) :
    (startedMerge env n e).key = e.key := rfl

/-- startedCreate creates the row under the notification key. -/
theorem startedCreate_key (env : EveEnv) (n : Notification) :
    (startedCreate env n).key = notifKey n := rfl

/-- The any() check of the upsert agrees with the lookup. -/
theorem any_key_eq_lookup_isSome (es : List ExtractionRec) (k : Nat × ℚ) :
    es.any (fun e => decide (e.key = k)) = (lookupExtraction es k).isSome := by
  induction es with
  | nil => rfl
  | cons e es ih =>
    rw [List.any_cons, lookupExtraction]
    by_cases h : e.key = k
    · simp [h]
    · simp only [decide_eq_false h, Bool.false_or, if_neg h]
      exact ih

/-- Mapping a key-preserving per-row update commutes with the lookup. -/
theorem lookupExtraction_map_upd (env : EveEnv) (n : Notification)
    (es : List ExtractionRec) (k : Nat × ℚ) :
    lookupExtraction
        (es.map (fun e => if e.key = notifKey n then startedMerge env n e else e)) k =
      (lookupExtraction es k).map
        (fun e => if e.key = notifKey n then startedMerge env n e else e) := by
  induction es with
  | nil => rfl
  | cons e es ih =>
    have hgkey : (if e.key = notifKey n then startedMerge env n e else e).key = e.key := by
      by_cases hn : e.key = notifKey n
      · rw [if_pos hn, startedMerge_key]
      · rw [if_neg hn]
    rw [List.map_cons, lookupExtraction, lookupExtraction, hgkey]
    by_cases h : e.key = k
    · rw [if_pos h, if_pos h, Option.map_some']
    · rw [if_neg h, if_neg h]
      exact ih

/-- Lookup across an append of a single row. -/
theorem lookupExtraction_append_single (es : List ExtractionRec)
    (e : ExtractionRec) (k : Nat × ℚ) :
    lookupExtraction (es ++ [e]) k =
      match lookupExtraction es k with
      | some x => some x
      | none => if e.key = k then some e else none := by
  induction es with
  | nil => rfl
  | cons x es ih =>
    rw [List.cons_append, lookupExtraction, lookupExtraction]
    by_cases h : x.key = k
    · rw [if_pos h, if_pos h]
    · rw [if_neg h, if_neg h]
      exact ih

/-- The per-key effect of the Started upsert: the row under the
notification key becomes the merged or created row, every other key is
untouched. -/
theorem lookupExtraction_upsert (env : EveEnv) (es : List ExtractionRec)
    (n : Notification) (k : Nat × ℚ) :
    lookupExtraction (upsertStarted env es n) k =
      if k = notifKey n then
        some (match lookupExtraction es (notifKey n) with
          | some e => startedMerge env n e
          | none => startedCreate env n)
      else lookupExtraction es k := by
  unfold upsertStarted
  cases hany : es.any (fun e => decide (e.key = notifKey n)) with
  | true =>
    rw [if_pos rfl, lookupExtraction_map_upd]
    rw [any_key_eq_lookup_isSome] at hany
    by_cases hk : k = notifKey n
    · subst hk
      rw [if_pos rfl]
      cases hfind : lookupExtraction es (notifKey n) with
      | none => rw [hfind] at hany; simp at hany
      | some e =>
        have he : e.key = notifKey n := lookupExtraction_key hfind
        simp only [Option.map_some', if_pos he]
    · rw [if_neg hk]
      cases hfind : lookupExtraction es k with
      | none => rfl
      | some e =>
        have he : e.key = k := lookupExtraction_key hfind
        have hne : ¬(e.key = notifKey n) := by rw [he]; exact hk
        simp only [Option.map_some', if_neg hne]
  | false =>
    simp only [Bool.false_eq_true, if_false]
    rw [lookupExtraction_append_single]
    rw [any_key_eq_lookup_isSome] at hany
    by_cases hk : k = notifKey n
    · subst hk
      cases hfind : lookupExtraction es (notifKey n) with
      | none => simp [startedCreate_key]
      | some e => rw [hfind] at hany; simp at hany
    · rw [if_neg hk]
      cases hfind : lookupExtraction es k with
      | none =>
        simp only [startedCreate_key]
        rw [if_neg (fun h => hk h.symm)]
      | some e => rfl

/-- The per-key effect of the delete: the deleted key is gone, every
other key is untouched. -/
theorem lookupExtraction_delete (es : List ExtractionRec) (kd k : Nat × ℚ) :
    lookupExtraction (deleteExtraction es kd) k =
      if k = kd then none else lookupExtraction es k := by
  induction es with
  | nil => rw [deleteExtraction]; by_cases h : k = kd <;> simp [lookupExtraction, h]
  | cons e es ih =>
    rw [deleteExtraction]
    by_cases hd : e.key = kd
    · rw [if_pos hd, ih]
      by_cases hk : k = kd
      · rw [if_pos hk, if_pos hk]
      · rw [if_neg hk, if_neg hk, lookupExtraction,
          if_neg (fun h : e.key = k => hk (h ▸ hd))]
    · rw [if_neg hd, lookupExtraction]
      by_cases hek : e.key = k
      · rw [if_pos hek, lookupExtraction, if_pos hek,
          if_neg (fun h : k = kd => hd (hek.trans h))]
      · rw [if_neg hek, ih, lookupExtraction, if_neg hek]

/-! ## Per-key decomposition of the notification fold -/

/-- The moon-link update every notification performs before the type
dispatch (models.py lines 444-451). -/
def stepMoon (refs : List RefineryRec) (n : Notification) : List RefineryRec :=
  match refineryLookup refs n.structure_id with
  | some r =>
    if r.moon = none then update_moon_from_eve_id refs n.structure_id n.moon_id
    else refs
  | none => refs

/-- The effect of one notification on one extraction key: the Started
upsert or the Cancelled delete. -/
inductive KOp where
  | kup (n : Notification)
  | kdel
deriving DecidableEq

/-- The Started upsert as a per-key function. -/
def kApply (env : EveEnv) (n : Notification) : Option ExtractionRec → ExtractionRec
  | some e => startedMerge env n e
  | none => startedCreate env n

/-- Fold a sequence of per-key effects over the state of one key. -/
def foldK (env : EveEnv) : Option ExtractionRec → List KOp → Option ExtractionRec
  | v, [] => v
  | v, .kup n :: rest => foldK env (some (kApply env n v)) rest
  | _, .kdel :: rest => foldK env none rest

/-- foldK distributes over list append. -/
theorem foldK_append (env : EveEnv) (xs ys : List KOp) (v : Option ExtractionRec) :
    foldK env v (xs ++ ys) = foldK env (foldK env v xs) ys := by
  induction xs generalizing v with
  | nil => rfl
  | cons op rest ih =>
    cases op with
    | kup n => rw [List.cons_append, foldK, foldK, ih]
    | kdel => rw [List.cons_append, foldK, foldK, ih]

/-- The upsert lemma phrased through kApply. -/
theorem lookupExtraction_upsert_kApply (env : EveEnv) (es : List ExtractionRec)
    (n : Notification) (k : Nat × ℚ) :
    lookupExtraction (upsertStarted env es n) k =
      if k = notifKey n then some (kApply env n (lookupExtraction es (notifKey n)))
      else lookupExtraction es k := by
  rw [lookupExtraction_upsert]
  cases lookupExtraction es (notifKey n) <;> rfl

/-- Whether a refinery id appears in a list of ids. -/
def hasRefinery (ids : List Nat) (sid : Nat) : Bool :=
  ids.any (fun i => i == sid)

/-- The refinery existence check through the projected id list. -/
theorem refineryLookup_isSome_hasRefinery (refs : List RefineryRec) (sid : Nat) :
    (refineryLookup refs sid).isSome = hasRefinery (refs.map (fun r => r.id)) sid := by
  induction refs with
  | nil => rfl
  | cons r rest ih =>
    rw [refineryLookup, List.map_cons, hasRefinery, List.any_cons]
    by_cases h : r.id = sid
    · simp [h]
    · simp only [if_neg h, (by simpa using h : ¬(r.id == sid) = true), Bool.false_or]
      · exact ih

/-- update_moon_from_eve_id does not change the projected id list. -/
theorem update_moon_ids (refs : List RefineryRec) (sid m : Nat) :
    (update_moon_from_eve_id refs sid m).map (fun r => r.id) =
      refs.map (fun r => r.id) := by
  induction refs with
  | nil => rfl
  | cons r rest ih =>
    rw [update_moon_from_eve_id, List.map_cons, List.map_cons, List.map_cons]
    rw [show (update_moon_from_eve_id rest sid m) = rest.map
      (fun r => if r.id = sid then { r with moon := some m } else r) from rfl] at ih
    rw [ih]
    by_cases h : r.id = sid
    · rw [if_pos h]
    · rw [if_neg h]

/-- stepMoon does not change the projected id list. -/
theorem stepMoon_ids (refs : List RefineryRec) (n : Notification) :
    (stepMoon refs n).map (fun r => r.id) = refs.map (fun r => r.id) := by
  unfold stepMoon
  cases refineryLookup refs n.structure_id with
  | none => rfl
  | some r =>
    dsimp only
    by_cases h : r.moon = none
    · rw [if_pos h, update_moon_ids]
    · rw [if_neg h]

/-- The dict evolution of one notification, computed from the event, the
refinery id list and the previous dict alone (no extraction table). -/
def dictStepT (ids : List Nat) (d : LastStartedDict) (n : Notification) :
    LastStartedDict :=
  match n.notif_type with
  | .started =>
    if hasRefinery ids n.structure_id then
      dictSet d n.structure_id (notifKey n, true)
    else d
  | .cancelled =>
    match dictGet d n.structure_id with
    | some (k, _) => dictSet d n.structure_id (k, false)
    | none => d
  | .finished =>
    match dictGet d n.structure_id with
    | some _ => dictDel d n.structure_id
    | none => d
  | .autoFracture => d
  | .laserFired => d

/-- The per-key effects of one notification. -/
def stepOps (ids : List Nat) (d : LastStartedDict) (n : Notification)
    (k : Nat × ℚ) : List KOp :=
  match n.notif_type with
  | .started =>
    if hasRefinery ids n.structure_id ∧ notifKey n = k then [.kup n] else []
  | .cancelled =>
    match dictGet d n.structure_id with
    | some (kd, true) => if kd = k then [.kdel] else []
    | _ => []
  | _ => []

/-- The extraction table after one notification, as a function of the
previous components. -/
def stepExtractions (env : EveEnv) (refs : List RefineryRec)
    (d : LastStartedDict) (es : List ExtractionRec) (n : Notification) :
    List ExtractionRec :=
  match n.notif_type with
  | .started =>
    if (refineryLookup refs n.structure_id).isSome then upsertStarted env es n
    else es
  | .cancelled =>
    match dictGet d n.structure_id with
    | some (kd, true) => deleteExtraction es kd
    | _ => es
  | _ => es

/-- Whether one notification avoids the delete-of-a-deleted-instance
ValueError. -/
def stepOk (d : LastStartedDict) (n : Notification) : Bool :=
  match n.notif_type with
  | .cancelled =>
    match dictGet d n.structure_id with
    | some (_, false) => false
    | _ => true
  | _ => true

/-- Whether a whole batch runs without that ValueError, computed from the
events, the refinery id list and the dict trace alone. -/
def runOk (ids : List Nat) (d : LastStartedDict) : List Notification → Bool
  | [] => true
  | n :: rest => stepOk d n && runOk ids (dictStepT ids d n) rest

/-- The per-key timeline of a batch for one extraction key. -/
def timeline (ids : List Nat) (d : LastStartedDict) (k : Nat × ℚ) :
    List Notification → List KOp
  | [] => []
  | n :: rest => stepOps ids d n k ++ timeline ids (dictStepT ids d n) k rest

/-- One loop iteration, decomposed: the refineries become stepMoon, the
extraction table becomes stepExtractions, the dict becomes dictStepT, and
per key the extraction table changes exactly by the stepOps effects. -/
theorem step_char (env : EveEnv) (ps ps₁ : ProcState) (n : Notification)
    (h : process_notification env ps n = some ps₁) :
    ps₁.st.refineries = stepMoon ps.st.refineries n ∧
    ps₁.st.extractions =
      stepExtractions env ps.st.refineries ps.last_extraction_started
        ps.st.extractions n ∧
    ps₁.last_extraction_started =
      dictStepT (ps.st.refineries.map (fun r => r.id))
        ps.last_extraction_started n ∧
    ∀ k, lookupExtraction ps₁.st.extractions k =
      foldK env (lookupExtraction ps.st.extractions k)
        (stepOps (ps.st.refineries.map (fun r => r.id))
          ps.last_extraction_started n k) := by
  cases hn : n.notif_type with
  | started =>
    simp only [process_notification, hn] at h
    cases hr : refineryLookup ps.st.refineries n.structure_id with
    | none =>
      have hhas : hasRefinery (ps.st.refineries.map (fun r => r.id)) n.structure_id = false := by
        rw [← refineryLookup_isSome_hasRefinery, hr]
        rfl
      rw [hr] at h
      simp only [Option.some.injEq] at h
      subst h
      refine ⟨by simp only [stepMoon, hr], ?_, ?_, ?_⟩
      · simp only [stepExtractions, hn, hr, Option.isSome_none, Bool.false_eq_true,
          if_false]
      · simp only [dictStepT, hn, hhas, Bool.false_eq_true, if_false]
      · intro k
        simp only [stepOps, hn, hhas, Bool.false_eq_true, false_and, if_false, foldK]
    | some r =>
      have hhas : hasRefinery (ps.st.refineries.map (fun r => r.id)) n.structure_id = true := by
        rw [← refineryLookup_isSome_hasRefinery, hr]
        rfl
      rw [hr] at h
      simp only [Option.some.injEq] at h
      subst h
      refine ⟨by simp only [stepMoon, hr], ?_, ?_, ?_⟩
      · simp only [stepExtractions, hn, hr, Option.isSome_some, if_true]
      · simp only [dictStepT, hn, hhas, if_true]
      · intro k
        simp only [stepOps, hn, hhas, true_and]
        by_cases hk : notifKey n = k
        · rw [if_pos hk, foldK, foldK, lookupExtraction_upsert_kApply,
            if_pos hk.symm, hk]
        · rw [if_neg hk, foldK, lookupExtraction_upsert_kApply,
            if_neg (fun hh => hk hh.symm)]
  | cancelled =>
    simp only [process_notification, hn] at h
    cases hd : dictGet ps.last_extraction_started n.structure_id with
    | none =>
      rw [hd] at h
      simp only [Option.some.injEq] at h
      subst h
      refine ⟨by simp only [stepMoon], ?_, ?_, ?_⟩
      · simp only [stepExtractions, hn, hd]
      · simp only [dictStepT, hn, hd]
      · intro k
        simp only [stepOps, hn, hd, foldK]
    | some kv =>
      obtain ⟨kd, alive⟩ := kv
      rw [hd] at h
      cases alive with
      | false => simp at h
      | true =>
        simp only [if_true, Option.some.injEq] at h
        subst h
        refine ⟨by simp only [stepMoon], ?_, ?_, ?_⟩
        · simp only [stepExtractions, hn, hd]
        · simp only [dictStepT, hn, hd]
        · intro k
          simp only [stepOps, hn, hd]
          by_cases hk : kd = k
          · rw [if_pos hk, foldK, lookupExtraction_delete, if_pos hk.symm]; rfl
          · rw [if_neg hk, foldK, lookupExtraction_delete,
              if_neg (fun hh => hk hh.symm)]
  | finished =>
    simp only [process_notification, hn] at h
    cases hd : dictGet ps.last_extraction_started n.structure_id with
    | none =>
      rw [hd] at h
      simp only [Option.some.injEq] at h
      subst h
      exact ⟨by simp only [stepMoon], by simp only [stepExtractions, hn],
        by simp only [dictStepT, hn, hd], fun k => by simp only [stepOps, hn, foldK]⟩
    | some kv =>
      rw [hd] at h
      simp only [Option.some.injEq] at h
      subst h
      exact ⟨by simp only [stepMoon], by simp only [stepExtractions, hn],
        by simp only [dictStepT, hn, hd], fun k => by simp only [stepOps, hn, foldK]⟩
  | autoFracture =>
    simp only [process_notification, hn, Option.some.injEq] at h
    subst h
    exact ⟨by simp only [stepMoon], by simp only [stepExtractions, hn],
      by simp only [dictStepT, hn], fun k => by simp only [stepOps, hn, foldK]⟩
  | laserFired =>
    simp only [process_notification, hn, Option.some.injEq] at h
    subst h
    exact ⟨by simp only [stepMoon], by simp only [stepExtractions, hn],
      by simp only [dictStepT, hn], fun k => by simp only [stepOps, hn, foldK]⟩

/-- One iteration succeeds exactly when stepOk allows it: only the
Cancelled branch hitting an already-deleted dict instance raises. -/
theorem step_isSome_eq (env : EveEnv) (ps : ProcState) (n : Notification) :
    (process_notification env ps n).isSome = stepOk ps.last_extraction_started n := by
  cases hn : n.notif_type with
  | started =>
    simp only [process_notification, hn, stepOk]
    cases refineryLookup ps.st.refineries n.structure_id <;> rfl
  | cancelled =>
    simp only [process_notification, hn, stepOk]
    cases hd : dictGet ps.last_extraction_started n.structure_id with
    | none => rfl
    | some kv =>
      obtain ⟨kd, alive⟩ := kv
      cases alive <;> rfl
  | finished =>
    simp only [process_notification, hn, stepOk]
    cases dictGet ps.last_extraction_started n.structure_id <;> rfl
  | autoFracture => simp only [process_notification, hn, stepOk]; rfl
  | laserFired => simp only [process_notification, hn, stepOk]; rfl

/-- Whether the whole loop succeeds depends only on the events, the
refinery id list and the dict trace, not on the extraction table. -/
theorem run_isSome_eq (env : EveEnv) :
    ∀ (b : List Notification) (ps : ProcState),
    (run_notifications env ps b).isSome =
      runOk (ps.st.refineries.map (fun r => r.id)) ps.last_extraction_started b := by
  intro b
  induction b with
  | nil => intro ps; rfl
  | cons n rest ih =>
    intro ps
    rw [run_notifications, runOk]
    cases hstep : process_notification env ps n with
    | none =>
      have := step_isSome_eq env ps n
      rw [hstep] at this
      rw [← this]
      rfl
    | some ps2 =>
      have hok := step_isSome_eq env ps n
      rw [hstep] at hok
      obtain ⟨hrefs, _, hdict, _⟩ := step_char env ps ps2 n hstep
      have hids : ps2.st.refineries.map (fun r => r.id) =
          ps.st.refineries.map (fun r => r.id) := by
        rw [hrefs, stepMoon_ids]
      rw [← hok]
      simp only [Option.isSome_some, Bool.true_and]
      rw [ih ps2, hids, hdict]

/-- The batch characterization: after a successful run, the row under
each key is the fold of that key's timeline over its initial row, and the
refinery id list is unchanged. -/
theorem run_char (env : EveEnv) :
    ∀ (b : List Notification) (ps ps₁ : ProcState),
    run_notifications env ps b = some ps₁ →
    (∀ k, lookupExtraction ps₁.st.extractions k =
      foldK env (lookupExtraction ps.st.extractions k)
        (timeline (ps.st.refineries.map (fun r => r.id))
          ps.last_extraction_started k b)) ∧
    ps₁.st.refineries.map (fun r => r.id) = ps.st.refineries.map (fun r => r.id) := by
  intro b
  induction b with
  | nil =>
    intro ps ps₁ h
    rw [run_notifications, Option.some.injEq] at h
    subst h
    exact ⟨fun k => rfl, rfl⟩
  | cons n rest ih =>
    intro ps ps₁ h
    rw [run_notifications] at h
    cases hstep : process_notification env ps n with
    | none => rw [hstep] at h; exact absurd h (by simp)
    | some ps2 =>
      rw [hstep] at h
      obtain ⟨hrefs, _, hdict, hlook⟩ := step_char env ps ps2 n hstep
      have hids : ps2.st.refineries.map (fun r => r.id) =
          ps.st.refineries.map (fun r => r.id) := by
        rw [hrefs, stepMoon_ids]
      obtain ⟨ihlook, ihids⟩ := ih ps2 ps₁ h
      constructor
      · intro k
        rw [ihlook k, hids, hdict, hlook k, timeline, foldK_append]
      · rw [ihids, hids]

/-! ## Idempotence of the per-key effects -/

/-- The any() product check agrees with membership. -/
theorem any_ore_eq (ps : List ExtractionProductRec) (oid : Nat) :
    ps.any (fun q => q.ore_type_id == oid) = true ↔
      ∃ p ∈ ps, p.ore_type_id = oid := by
  simp [List.any_eq_true]

/-- addProduct keeps every ore type that was already present. -/
theorem addProduct_mem_mono (ps : List ExtractionProductRec) (oid : Nat) (vol : ℚ)
    (i : Nat) (h : ∃ p ∈ ps, p.ore_type_id = i) :
    ∃ p ∈ addProduct ps oid vol, p.ore_type_id = i := by
  unfold addProduct
  by_cases ha : ps.any (fun q => q.ore_type_id == oid) = true
  · rw [if_pos ha]; exact h
  · rw [if_neg ha]
    obtain ⟨p, hp, hpi⟩ := h
    exact ⟨p, List.mem_append_left _ hp, hpi⟩

/-- addProduct makes its own ore type present. -/
theorem addProduct_mem_self (ps : List ExtractionProductRec) (oid : Nat) (vol : ℚ) :
    ∃ p ∈ addProduct ps oid vol, p.ore_type_id = oid := by
  unfold addProduct
  by_cases ha : ps.any (fun q => q.ore_type_id == oid) = true
  · rw [if_pos ha]; exact (any_ore_eq ps oid).mp ha
  · rw [if_neg ha]
    exact ⟨⟨oid, vol⟩, List.mem_append_right _ (List.mem_singleton_self _), rfl⟩

/-- addProducts keeps every ore type that was already present. -/
theorem addProducts_mem_mono (ores : List (Nat × ℚ)) :
    ∀ (ps : List ExtractionProductRec) (i : Nat),
    (∃ p ∈ ps, p.ore_type_id = i) →
    ∃ p ∈ addProducts ps ores, p.ore_type_id = i := by
  induction ores with
  | nil => intro ps i h; exact h
  | cons a rest ih =>
    intro ps i h
    exact ih (addProduct ps a.1 a.2) i (addProduct_mem_mono ps a.1 a.2 i h)

/-- After addProducts every listed ore type is present. -/
theorem addProducts_mem_all (ores : List (Nat × ℚ)) :
    ∀ (ps : List ExtractionProductRec), ∀ o ∈ ores,
    ∃ p ∈ addProducts ps ores, p.ore_type_id = o.1 := by
  induction ores with
  | nil => intro ps o ho; cases ho
  | cons a rest ih =>
    intro ps o ho
    rcases List.mem_cons.mp ho with ho | ho
    · subst ho
      exact addProducts_mem_mono rest (addProduct ps o.1 o.2) o.1
        (addProduct_mem_self ps o.1 o.2)
    · exact ih (addProduct ps a.1 a.2) o ho

/-- addProducts is the identity when every listed ore type is already
present. -/
theorem addProducts_noop (ores : List (Nat × ℚ)) :
    ∀ (ps : List ExtractionProductRec),
    (∀ o ∈ ores, ∃ p ∈ ps, p.ore_type_id = o.1) →
    addProducts ps ores = ps := by
  induction ores with
  | nil => intro ps _; rfl
  | cons a rest ih =>
    intro ps h
    have ha : addProduct ps a.1 a.2 = ps := by
      unfold addProduct
      rw [if_pos ((any_ore_eq ps a.1).mpr (h a (List.mem_cons_self a rest)))]
    show addProducts (addProduct ps a.1 a.2) rest = ps
    rw [ha]
    exact ih ps (fun o ho => h o (List.mem_cons_of_mem a ho))

/-- The derived fields of a row agree with its product rows. -/
def derivedConsistent (env : EveEnv) (e : ExtractionRec) : Prop :=
  e.value = some (Extraction_calc_value env e.products) ∧
    e.is_jackpot = calc_is_jackpot env e.products

/-- update_calculated_properties always leaves consistent derived
fields. -/
theorem update_calc_consistent (env : EveEnv) (e : ExtractionRec) :
    derivedConsistent env (update_calculated_properties env e) :=
  ⟨rfl, rfl⟩

/-- update_calculated_properties is the identity on a consistent row. -/
theorem update_calc_fixpoint (env : EveEnv) (e : ExtractionRec)
    (h : derivedConsistent env e) : update_calculated_properties env e = e := by
  obtain ⟨h1, h2⟩ := h
  unfold update_calculated_properties
  cases e
  simp only at h1 h2 ⊢
  rw [← h1, ← h2]

/-- startedMerge is the identity on a consistent row that already has
every product of the notification. -/
theorem startedMerge_fixpoint (env : EveEnv) (n : Notification) (e : ExtractionRec)
    (hp : ∀ o ∈ n.ore_volume_by_type, ∃ p ∈ e.products, p.ore_type_id = o.1)
    (hc : derivedConsistent env e) : startedMerge env n e = e := by
  unfold startedMerge
  rw [addProducts_noop n.ore_volume_by_type e.products hp]
  exact update_calc_fixpoint env e hc

/-- The upsert output always has consistent derived fields. -/
theorem kApply_consistent (env : EveEnv) (n : Notification)
    (v : Option ExtractionRec) : derivedConsistent env (kApply env n v) := by
  cases v with
  | none => exact update_calc_consistent env _
  | some e => exact update_calc_consistent env _

/-- The upsert output contains every product of the notification. -/
theorem kApply_mem_all (env : EveEnv) (n : Notification) (v : Option ExtractionRec) :
    ∀ o ∈ n.ore_volume_by_type, ∃ p ∈ (kApply env n v).products, p.ore_type_id = o.1 := by
  cases v with
  | none => exact fun o ho => addProducts_mem_all n.ore_volume_by_type [] o ho
  | some e => exact fun o ho => addProducts_mem_all n.ore_volume_by_type e.products o ho

/-- The upsert output keeps every ore type present in the previous row. -/
theorem kApply_mem_mono (env : EveEnv) (n : Notification) (e : ExtractionRec)
    (i : Nat) (h : ∃ p ∈ e.products, p.ore_type_id = i) :
    ∃ p ∈ (kApply env n (some e)).products, p.ore_type_id = i :=
  addProducts_mem_mono n.ore_volume_by_type e.products i h

/-- Once a delete occurs, the fold does not depend on the starting row. -/
theorem foldK_oblivious (env : EveEnv) (ops : List KOp) (hdel : KOp.kdel ∈ ops) :
    ∀ v w, foldK env v ops = foldK env w ops := by
  induction ops with
  | nil => cases hdel
  | cons op rest ih =>
    intro v w
    cases op with
    | kdel => rfl
    | kup n =>
      have hrest : KOp.kdel ∈ rest := by
        rcases List.mem_cons.mp hdel with h | h
        · cases h
        · exact h
      rw [foldK, foldK]
      exact ih hrest _ _

/-- A delete-free fold of a consistent row yields a consistent row whose
products contain the old products and the products of every applied
notification. -/
theorem foldK_nodel (env : EveEnv) (ops : List KOp) (hdel : KOp.kdel ∉ ops) :
    ∀ e, derivedConsistent env e →
    ∃ e2, foldK env (some e) ops = some e2 ∧ derivedConsistent env e2 ∧
      (∀ i, (∃ p ∈ e.products, p.ore_type_id = i) →
        ∃ p ∈ e2.products, p.ore_type_id = i) ∧
      ∀ n, KOp.kup n ∈ ops → ∀ o ∈ n.ore_volume_by_type,
        ∃ p ∈ e2.products, p.ore_type_id = o.1 := by
  induction ops with
  | nil =>
    intro e hc
    exact ⟨e, rfl, hc, fun i h => h, fun n hn => absurd hn (by simp)⟩
  | cons op rest ih =>
    intro e hc
    cases op with
    | kdel => exact absurd (List.mem_cons_self _ _) hdel
    | kup n =>
      have hdrest : KOp.kdel ∉ rest := fun h => hdel (List.mem_cons_of_mem _ h)
      obtain ⟨e2, hf, hc2, hmono, hkups⟩ :=
        ih hdrest (kApply env n (some e)) (kApply_consistent env n (some e))
      refine ⟨e2, by rw [foldK]; exact hf, hc2, ?_, ?_⟩
      · exact fun i hi => hmono i (kApply_mem_mono env n e i hi)
      · intro m hm o ho
        rcases List.mem_cons.mp hm with hh | hh
        · cases hh
          exact hmono _ (kApply_mem_all env n (some e) o ho)
        · exact hkups m hh o ho

/-- A delete-free fold is the identity on a consistent row that already
contains the products of every applied notification. -/
theorem foldK_fixpoint (env : EveEnv) (ops : List KOp) (hdel : KOp.kdel ∉ ops) :
    ∀ e, derivedConsistent env e →
    (∀ n, KOp.kup n ∈ ops → ∀ o ∈ n.ore_volume_by_type,
      ∃ p ∈ e.products, p.ore_type_id = o.1) →
    foldK env (some e) ops = some e := by
  induction ops with
  | nil => intro e _ _; rfl
  | cons op rest ih =>
    intro e hc hall
    cases op with
    | kdel => exact absurd (List.mem_cons_self _ _) hdel
    | kup n =>
      have hdrest : KOp.kdel ∉ rest := fun h => hdel (List.mem_cons_of_mem _ h)
      have hfix : kApply env n (some e) = e :=
        startedMerge_fixpoint env n e
          (hall n (List.mem_cons_self _ _)) hc
      rw [foldK, hfix]
      exact ih hdrest e hc (fun m hm => hall m (List.mem_cons_of_mem _ hm))

/-- Replaying a per-key timeline on its own result is the identity. -/
theorem foldK_idem (env : EveEnv) :
    ∀ (ops : List KOp) (v w : Option ExtractionRec),
    foldK env v ops = w → foldK env w ops = w := by
  intro ops
  induction ops with
  | nil =>
    intro v w h
    rw [foldK] at h
    subst h
    rfl
  | cons op rest ih =>
    intro v w h
    cases op with
    | kdel =>
      rw [foldK] at h ⊢
      exact h
    | kup n =>
      rw [foldK] at h ⊢
      by_cases hdel : KOp.kdel ∈ rest
      · rw [foldK_oblivious env rest hdel (some (kApply env n w)) (some (kApply env n v))]
        exact h
      · obtain ⟨e2, hf, hc2, hmono, hkups⟩ :=
          foldK_nodel env rest hdel (kApply env n v) (kApply_consistent env n v)
        rw [hf] at h
        subst h
        have hno : ∀ o ∈ n.ore_volume_by_type,
            ∃ p ∈ e2.products, p.ore_type_id = o.1 :=
          fun o ho => hmono o.1 (kApply_mem_all env n v o ho)
        have hfix : kApply env n (some e2) = e2 :=
          startedMerge_fixpoint env n e2 hno hc2
        rw [hfix]
        exact foldK_fixpoint env rest hdel e2 hc2 hkups

/-! ## Stability of the refinery moon links under replay -/

/-- A found refinery row has the id the lookup asked for. -/
theorem refineryLookup_id {refs : List RefineryRec} {sid : Nat} {r : RefineryRec}
    (h : refineryLookup refs sid = some r) : r.id = sid := by
  induction refs with
  | nil => cases h
  | cons x rest ih =>
    by_cases hx : x.id = sid
    · rw [refineryLookup, if_pos hx] at h
      cases h
      exact hx
    · rw [refineryLookup, if_neg hx] at h
      exact ih h

/-- Lookup through the moon-link map update. -/
theorem refineryLookup_update_moon (refs : List RefineryRec) (sid' m sid : Nat) :
    refineryLookup (update_moon_from_eve_id refs sid' m) sid =
      (refineryLookup refs sid).map
        (fun r => if r.id = sid' then { r with moon := some m } else r) := by
  induction refs with
  | nil => rfl
  | cons r rest ih =>
    have hid : (if r.id = sid' then { r with moon := some m } else r).id = r.id := by
      by_cases h : r.id = sid'
      · rw [if_pos h]
      · rw [if_neg h]
    rw [update_moon_from_eve_id, List.map_cons, refineryLookup, hid, refineryLookup]
    by_cases h : r.id = sid
    · rw [if_pos h, if_pos h, Option.map_some']
    · rw [if_neg h, if_neg h]
      rw [show List.map (fun r => if r.id = sid' then { r with moon := some m } else r) rest =
        update_moon_from_eve_id rest sid' m from rfl]
      exact ih

/-- The refinery at a structure id, when present, has a moon link. -/
def moonSomeAt (refs : List RefineryRec) (sid : Nat) : Prop :=
  ∀ r, refineryLookup refs sid = some r → r.moon.isSome = true

/-- stepMoon never clears a moon link. -/
theorem stepMoon_mono (refs : List RefineryRec) (n : Notification) (sid : Nat)
    (h : moonSomeAt refs sid) : moonSomeAt (stepMoon refs n) sid := by
  unfold stepMoon
  cases hl : refineryLookup refs n.structure_id with
  | none => exact h
  | some r =>
    dsimp only
    by_cases hm : r.moon = none
    · rw [if_pos hm]
      intro r2 h2
      rw [refineryLookup_update_moon] at h2
      cases hl0 : refineryLookup refs sid with
      | none => rw [hl0] at h2; cases h2
      | some r0 =>
        rw [hl0, Option.map_some', Option.some.injEq] at h2
        subst h2
        by_cases hid : r0.id = n.structure_id
        · rw [if_pos hid]; rfl
        · rw [if_neg hid]; exact h r0 hl0
    · rw [if_neg hm]
      exact h

/-- After stepMoon the refinery of the processed notification, when it
exists, has a moon link. -/
theorem stepMoon_sets (refs : List RefineryRec) (n : Notification) :
    moonSomeAt (stepMoon refs n) n.structure_id := by
  unfold stepMoon
  cases hl : refineryLookup refs n.structure_id with
  | none =>
    intro r2 h2
    rw [hl] at h2
    cases h2
  | some r =>
    dsimp only
    by_cases hm : r.moon = none
    · rw [if_pos hm]
      intro r2 h2
      rw [refineryLookup_update_moon, hl, Option.map_some', Option.some.injEq] at h2
      subst h2
      rw [if_pos (refineryLookup_id hl)]
      rfl
    · rw [if_neg hm]
      intro r2 h2
      rw [hl, Option.some.injEq] at h2
      subst h2
      exact Option.isSome_iff_ne_none.mpr hm

/-- stepMoon is the identity when the refinery of the notification
already has a moon link. -/
theorem stepMoon_noop (refs : List RefineryRec) (n : Notification)
    (h : moonSomeAt refs n.structure_id) : stepMoon refs n = refs := by
  unfold stepMoon
  cases hl : refineryLookup refs n.structure_id with
  | none => rfl
  | some r =>
    dsimp only
    have := h r hl
    rw [if_neg (fun hm : r.moon = none => by rw [hm] at this; cases this)]

/-- Moon links present before the run are still present after it. -/
theorem run_moon_mono (env : EveEnv) :
    ∀ (b : List Notification) (ps ps' : ProcState) (sid : Nat),
    run_notifications env ps b = some ps' →
    moonSomeAt ps.st.refineries sid → moonSomeAt ps'.st.refineries sid := by
  intro b
  induction b with
  | nil =>
    intro ps ps' sid h hm
    rw [run_notifications, Option.some.injEq] at h
    subst h
    exact hm
  | cons n rest ih =>
    intro ps ps' sid h hm
    rw [run_notifications] at h
    cases hstep : process_notification env ps n with
    | none => rw [hstep] at h; exact absurd h (by simp)
    | some ps2 =>
      rw [hstep] at h
      obtain ⟨hrefs, _, _, _⟩ := step_char env ps ps2 n hstep
      refine ih ps2 ps' sid h ?_
      rw [hrefs]
      exact stepMoon_mono ps.st.refineries n sid hm

/-- After a successful run, the refinery of every processed notification,
when it exists, has a moon link. -/
theorem run_moon_post (env : EveEnv) :
    ∀ (b : List Notification) (ps ps' : ProcState),
    run_notifications env ps b = some ps' →
    ∀ n ∈ b, moonSomeAt ps'.st.refineries n.structure_id := by
  intro b
  induction b with
  | nil => intro ps ps' _ n hn; cases hn
  | cons m rest ih =>
    intro ps ps' h n hn
    rw [run_notifications] at h
    cases hstep : process_notification env ps m with
    | none => rw [hstep] at h; exact absurd h (by simp)
    | some ps2 =>
      rw [hstep] at h
      obtain ⟨hrefs, _, _, _⟩ := step_char env ps ps2 m hstep
      rcases List.mem_cons.mp hn with hh | hh
      · subst hh
        refine run_moon_mono env rest ps2 ps' n.structure_id h ?_
        rw [hrefs]
        exact stepMoon_sets ps.st.refineries n
      · exact ih ps2 ps' h n hh

/-- A run whose notifications all already have moon-linked refineries
leaves the refinery table unchanged. -/
theorem run_refineries_stable (env : EveEnv) :
    ∀ (b : List Notification) (ps ps' : ProcState),
    run_notifications env ps b = some ps' →
    (∀ n ∈ b, moonSomeAt ps.st.refineries n.structure_id) →
    ps'.st.refineries = ps.st.refineries := by
  intro b
  induction b with
  | nil =>
    intro ps ps' h _
    rw [run_notifications, Option.some.injEq] at h
    subst h
    rfl
  | cons n rest ih =>
    intro ps ps' h hall
    rw [run_notifications] at h
    cases hstep : process_notification env ps n with
    | none => rw [hstep] at h; exact absurd h (by simp)
    | some ps2 =>
      rw [hstep] at h
      obtain ⟨hrefs, _, _, _⟩ := step_char env ps ps2 n hstep
      have hsame : ps2.st.refineries = ps.st.refineries := by
        rw [hrefs]
        exact stepMoon_noop ps.st.refineries n (hall n (List.mem_cons_self n rest))
      have := ih ps2 ps' h (fun m hm => by
        rw [hsame]
        exact hall m (List.mem_cons_of_mem n hm))
      rw [this, hsame]

/-! ## The unique-pair invariants -/

/-- At most one extraction row per (refinery, ready_time). -/
def KeysNodup (es : List ExtractionRec) : Prop :=
  es.Pairwise (fun a b => a.key ≠ b.key)

/-- At most one product row per (extraction, ore_type), in every row. -/
def ProductsNodupAll (es : List ExtractionRec) : Prop :=
  ∀ e ∈ es, e.products.Pairwise (fun a b => a.ore_type_id ≠ b.ore_type_id)

/-- addProduct keeps product ore types pairwise distinct. -/
theorem addProduct_nodup (ps : List ExtractionProductRec) (oid : Nat) (vol : ℚ)
    (h : ps.Pairwise (fun a b => a.ore_type_id ≠ b.ore_type_id)) :
    (addProduct ps oid vol).Pairwise (fun a b => a.ore_type_id ≠ b.ore_type_id) := by
  unfold addProduct
  by_cases ha : ps.any (fun q => q.ore_type_id == oid) = true
  · rw [if_pos ha]; exact h
  · rw [if_neg ha]
    rw [List.pairwise_append]
    refine ⟨h, List.pairwise_singleton _ _, ?_⟩
    intro a hain b hb
    rw [List.mem_singleton] at hb
    subst hb
    intro hcontra
    exact ha ((any_ore_eq ps oid).mpr ⟨a, hain, hcontra⟩)

/-- addProducts keeps product ore types pairwise distinct. -/
theorem addProducts_nodup (ores : List (Nat × ℚ)) :
    ∀ ps, ps.Pairwise (fun a b => a.ore_type_id ≠ b.ore_type_id) →
    (addProducts ps ores).Pairwise (fun a b => a.ore_type_id ≠ b.ore_type_id) := by
  induction ores with
  | nil => intro ps h; exact h
  | cons a rest ih =>
    intro ps h
    exact ih (addProduct ps a.1 a.2) (addProduct_nodup ps a.1 a.2 h)

/-- A failed lookup means no row carries that key. -/
theorem lookupExtraction_none {es : List ExtractionRec} {k : Nat × ℚ}
    (h : lookupExtraction es k = none) : ∀ e ∈ es, e.key ≠ k := by
  induction es with
  | nil => intro e he; cases he
  | cons x rest ih =>
    intro e he
    by_cases hx : x.key = k
    · rw [lookupExtraction, if_pos hx] at h
      cases h
    · rw [lookupExtraction, if_neg hx] at h
      rcases List.mem_cons.mp he with hh | hh
      · subst hh; exact hx
      · exact ih h e hh

/-- The Started upsert preserves key uniqueness. -/
theorem upsertStarted_keysNodup (env : EveEnv) (es : List ExtractionRec)
    (n : Notification) (h : KeysNodup es) : KeysNodup (upsertStarted env es n) := by
  unfold upsertStarted
  cases hany : es.any (fun e => decide (e.key = notifKey n)) with
  | true =>
    rw [if_pos rfl]
    unfold KeysNodup
    rw [List.pairwise_map]
    refine h.imp ?_
    intro a b hab
    have ga : (if a.key = notifKey n then startedMerge env n a else a).key = a.key := by
      by_cases hh : a.key = notifKey n
      · rw [if_pos hh, startedMerge_key]
      · rw [if_neg hh]
    have gb : (if b.key = notifKey n then startedMerge env n b else b).key = b.key := by
      by_cases hh : b.key = notifKey n
      · rw [if_pos hh, startedMerge_key]
      · rw [if_neg hh]
    rw [ga, gb]
    exact hab
  | false =>
    simp only [Bool.false_eq_true, if_false]
    unfold KeysNodup
    rw [List.pairwise_append]
    refine ⟨h, List.pairwise_singleton _ _, ?_⟩
    intro a ha b hb
    rw [List.mem_singleton] at hb
    subst hb
    rw [startedCreate_key]
    rw [any_key_eq_lookup_isSome] at hany
    cases hl : lookupExtraction es (notifKey n) with
    | some e => rw [hl] at hany; cases hany
    | none => exact lookupExtraction_none hl a ha

/-- deleteExtraction yields a sublist. -/
theorem deleteExtraction_sublist (es : List ExtractionRec) (k : Nat × ℚ) :
    (deleteExtraction es k).Sublist es := by
  induction es with
  | nil => exact List.Sublist.refl []
  | cons e rest ih =>
    rw [deleteExtraction]
    by_cases h : e.key = k
    · rw [if_pos h]
      exact ih.cons e
    · rw [if_neg h]
      exact ih.cons₂ e

/-- The delete preserves key uniqueness. -/
theorem deleteExtraction_keysNodup (es : List ExtractionRec) (k : Nat × ℚ)
    (h : KeysNodup es) : KeysNodup (deleteExtraction es k) :=
  h.sublist (deleteExtraction_sublist es k)

/-- The Started upsert preserves product uniqueness in every row. -/
theorem upsertStarted_productsNodup (env : EveEnv) (es : List ExtractionRec)
    (n : Notification) (h : ProductsNodupAll es) :
    ProductsNodupAll (upsertStarted env es n) := by
  unfold upsertStarted
  cases hany : es.any (fun e => decide (e.key = notifKey n)) with
  | true =>
    rw [if_pos rfl]
    intro e2 he2
    obtain ⟨e, he, heq⟩ := List.mem_map.mp he2
    subst heq
    by_cases hh : e.key = notifKey n
    · rw [if_pos hh]
      exact addProducts_nodup n.ore_volume_by_type e.products (h e he)
    · rw [if_neg hh]
      exact h e he
  | false =>
    simp only [Bool.false_eq_true, if_false]
    intro e2 he2
    rcases List.mem_append.mp he2 with hh | hh
    · exact h e2 hh
    · rw [List.mem_singleton] at hh
      subst hh
      exact addProducts_nodup n.ore_volume_by_type [] (List.Pairwise.nil)

/-- The delete preserves product uniqueness in every row. -/
theorem deleteExtraction_productsNodup (es : List ExtractionRec) (k : Nat × ℚ)
    (h : ProductsNodupAll es) : ProductsNodupAll (deleteExtraction es k) :=
  fun e he => h e ((deleteExtraction_sublist es k).mem he)

/-- One loop iteration preserves both unique-pair invariants. -/
theorem step_nodup (env : EveEnv) (ps ps₁ : ProcState) (n : Notification)
    (h : process_notification env ps n = some ps₁) :
    (KeysNodup ps.st.extractions → KeysNodup ps₁.st.extractions) ∧
    (ProductsNodupAll ps.st.extractions → ProductsNodupAll ps₁.st.extractions) := by
  obtain ⟨_, hexts, _, _⟩ := step_char env ps ps₁ n h
  rw [hexts]
  unfold stepExtractions
  cases n.notif_type with
  | started =>
    by_cases hr : (refineryLookup ps.st.refineries n.structure_id).isSome = true
    · rw [if_pos hr]
      exact ⟨upsertStarted_keysNodup env _ n, upsertStarted_productsNodup env _ n⟩
    · rw [if_neg hr]
      exact ⟨id, id⟩
  | cancelled =>
    cases hd : dictGet ps.last_extraction_started n.structure_id with
    | none => exact ⟨id, id⟩
    | some kv =>
      obtain ⟨kd, alive⟩ := kv
      cases alive with
      | false => exact ⟨id, id⟩
      | true =>
        exact ⟨deleteExtraction_keysNodup _ kd, deleteExtraction_productsNodup _ kd⟩
  | finished => exact ⟨id, id⟩
  | autoFracture => exact ⟨id, id⟩
  | laserFired => exact ⟨id, id⟩

/-- The whole loop preserves both unique-pair invariants. -/
theorem run_nodup (env : EveEnv) :
    ∀ (b : List Notification) (ps ps' : ProcState),
    run_notifications env ps b = some ps' →
    (KeysNodup ps.st.extractions → KeysNodup ps'.st.extractions) ∧
    (ProductsNodupAll ps.st.extractions → ProductsNodupAll ps'.st.extractions) := by
  intro b
  induction b with
  | nil =>
    intro ps ps' h
    rw [run_notifications, Option.some.injEq] at h
    subst h
    exact ⟨id, id⟩
  | cons n rest ih =>
    intro ps ps' h
    rw [run_notifications] at h
    cases hstep : process_notification env ps n with
    | none => rw [hstep] at h; exact absurd h (by simp)
    | some ps2 =>
      rw [hstep] at h
      obtain ⟨h1, h2⟩ := step_nodup env ps ps2 n hstep
      obtain ⟨h3, h4⟩ := ih ps2 ps' h
      exact ⟨fun hk => h3 (h1 hk), fun hp => h4 (h2 hp)⟩

/-- C4: a successful notification batch preserves the at-most-one-row-per
(refinery, ready_time) invariant and the at-most-one-product-per-ore
invariant, and re-running the identical batch on the resulting state
succeeds, keeps the refinery table identical, and leaves the extraction
row under every key unchanged (the upsert refreshes derived fields to the
values they already have): no duplicate extraction row and no duplicate
product row is ever created. -/
theorem claim_C4_upsert_and_replay (env : EveEnv) (s0 s1 : OwnerState)
    (b : List Notification)
    (h1 : update_extractions_from_esi env s0 b = some s1) :
    (KeysNodup s0.extractions → KeysNodup s1.extractions) ∧
    (ProductsNodupAll s0.extractions → ProductsNodupAll s1.extractions) ∧
    ∃ s2, update_extractions_from_esi env s1 b = some s2 ∧
      s2.refineries = s1.refineries ∧
      (∀ k, lookupExtraction s2.extractions k = lookupExtraction s1.extractions k) ∧
      (KeysNodup s1.extractions → KeysNodup s2.extractions) ∧
      (ProductsNodupAll s1.extractions → ProductsNodupAll s2.extractions) := by
  unfold update_extractions_from_esi at h1
  rw [Option.map_eq_some'] at h1
  obtain ⟨ps1, hrun1, hst1⟩ := h1
  subst hst1
  have hnodup1 := run_nodup env (sortedByTimestamp b)
    ⟨s0, []⟩ ps1 hrun1
  have hchar1 := run_char env (sortedByTimestamp b) ⟨s0, []⟩ ps1 hrun1
  have hids1 : ps1.st.refineries.map (fun r => r.id) =
      s0.refineries.map (fun r => r.id) := hchar1.2
  have hok2 : (run_notifications env ⟨ps1.st, []⟩ (sortedByTimestamp b)).isSome = true := by
    rw [run_isSome_eq env (sortedByTimestamp b) ⟨ps1.st, []⟩]
    have hok1 := run_isSome_eq env (sortedByTimestamp b) ⟨s0, []⟩
    rw [hrun1] at hok1
    show runOk (ps1.st.refineries.map (fun r => r.id)) [] (sortedByTimestamp b) = true
    rw [hids1]
    exact hok1.symm
  obtain ⟨ps2, hrun2⟩ := Option.isSome_iff_exists.mp hok2
  have hchar2 := run_char env (sortedByTimestamp b) ⟨ps1.st, []⟩ ps2 hrun2
  have hmoons : ∀ n ∈ sortedByTimestamp b, moonSomeAt ps1.st.refineries n.structure_id :=
    run_moon_post env (sortedByTimestamp b) ⟨s0, []⟩ ps1 hrun1
  have hnodup2 := run_nodup env (sortedByTimestamp b) ⟨ps1.st, []⟩ ps2 hrun2
  refine ⟨hnodup1.1, hnodup1.2, ps2.st, ?_, ?_, ?_, hnodup2.1, hnodup2.2⟩
  · unfold update_extractions_from_esi
    rw [hrun2]
    rfl
  · exact run_refineries_stable env (sortedByTimestamp b) ⟨ps1.st, []⟩ ps2 hrun2 hmoons
  · intro k
    have h2k := hchar2.1 k
    show lookupExtraction ps2.st.extractions k = lookupExtraction ps1.st.extractions k
    rw [h2k]
    show foldK env (lookupExtraction ps1.st.extractions k)
      (timeline (ps1.st.refineries.map (fun r => r.id)) [] k (sortedByTimestamp b)) =
      lookupExtraction ps1.st.extractions k
    rw [hids1]
    exact foldK_idem env _ _ _ (hchar1.1 k).symm

/-- A minimal environment with no priced materials, used for the replay
witness. -/
def envLite : EveEnv where
  MOONMINING_REPROCESSING_YIELD := 1
  MOONMINING_VOLUME_PER_MONTH := 1
  averagePrice := fun _ => none
  oreType := fun _ => { volume := none, materials := [] }
  dogmaValue := fun _ => none
  eveGroupId := fun _ => 0
  resolveEntityOk := fun _ => true

/-- The observable state after processing the single Started notification
of the demo batch under envLite. -/
def s1Lite : OwnerState where
  refineries := [{ id := 1, name := "R", eve_type_id := 35835, moon := some 40161708 }]
  extractions :=
    [{ refinery_id := 1
       ready_time := 0
       auto_time := 10800
       started_by := some 1001
       value := some 0
       is_jackpot := some false
       products := [{ ore_type_id := 45506, volume := 1000 }] }]

set_option maxRecDepth 1500 in
/-- Witness for C4 at the concrete one-event demo batch. -/
theorem claim_C4_witness :
    (KeysNodup demoState.extractions → KeysNodup s1Lite.extractions) ∧
    (ProductsNodupAll demoState.extractions → ProductsNodupAll s1Lite.extractions) ∧
    ∃ s2, update_extractions_from_esi envLite s1Lite [startedNotifDemo] = some s2 ∧
      s2.refineries = s1Lite.refineries ∧
      (∀ k, lookupExtraction s2.extractions k = lookupExtraction s1Lite.extractions k) ∧
      (KeysNodup s1Lite.extractions → KeysNodup s2.extractions) ∧
      (ProductsNodupAll s1Lite.extractions → ProductsNodupAll s2.extractions) :=
  claim_C4_upsert_and_replay envLite demoState s1Lite [startedNotifDemo]
    (by with_unfolding_all rfl)

/-! ## Sorting by timestamp -/

/-- Sorted ascending by timestamp. -/
def TsSorted (l : List Notification) : Prop :=
  l.Pairwise (fun a b => a.timestamp ≤ b.timestamp)

/-- Stable insertion permutes. -/
theorem insertByTimestamp_perm (n : Notification) (l : List Notification) :
    (insertByTimestamp n l).Perm (n :: l) := by
  induction l with
  | nil => exact List.Perm.refl _
  | cons m rest ih =>
    rw [insertByTimestamp]
    by_cases h : m.timestamp ≤ n.timestamp
    · rw [if_pos h]
      exact (ih.cons m).trans (List.Perm.swap n m rest)
    · rw [if_neg h]

/-- The insertion-sort fold permutes. -/
theorem sort_fold_perm (l : List Notification) :
    ∀ acc, (l.foldl (fun a n => insertByTimestamp n a) acc).Perm (acc ++ l) := by
  induction l with
  | nil => intro acc; simp
  | cons n rest ih =>
    intro acc
    rw [List.foldl_cons]
    refine (ih (insertByTimestamp n acc)).trans ?_
    refine (((insertByTimestamp_perm n acc).append_right rest).trans ?_)
    exact List.perm_middle.symm.trans (List.Perm.refl _) |>.symm.symm

/-- sortedByTimestamp permutes its input. -/
theorem sortedByTimestamp_perm (l : List Notification) :
    (sortedByTimestamp l).Perm l :=
  sort_fold_perm l []

/-- Stable insertion preserves sortedness. -/
theorem insertByTimestamp_sorted (n : Notification) (l : List Notification)
    (h : TsSorted l) : TsSorted (insertByTimestamp n l) := by
  induction l with
  | nil => exact List.pairwise_singleton _ _
  | cons m rest ih =>
    rw [TsSorted, List.pairwise_cons] at h
    obtain ⟨hm, hrest⟩ := h
    rw [insertByTimestamp]
    by_cases hc : m.timestamp ≤ n.timestamp
    · rw [if_pos hc]
      rw [TsSorted, List.pairwise_cons]
      refine ⟨?_, ih hrest⟩
      intro x hx
      have := (insertByTimestamp_perm n rest).mem_iff.mp hx
      rcases List.mem_cons.mp this with hh | hh
      · subst hh; exact hc
      · exact hm x hh
    · rw [if_neg hc]
      rw [TsSorted, List.pairwise_cons]
      refine ⟨?_, List.pairwise_cons.mpr ⟨hm, hrest⟩⟩
      intro x hx
      rcases List.mem_cons.mp hx with hh | hh
      · subst hh; exact le_of_lt (lt_of_not_le hc)
      · exact le_trans (le_of_lt (lt_of_not_le hc)) (hm x hh)

/-- The insertion-sort fold preserves sortedness. -/
theorem sort_fold_sorted (l : List Notification) :
    ∀ acc, TsSorted acc →
    TsSorted (l.foldl (fun a n => insertByTimestamp n a) acc) := by
  induction l with
  | nil => intro acc h; exact h
  | cons n rest ih =>
    intro acc h
    rw [List.foldl_cons]
    exact ih (insertByTimestamp n acc) (insertByTimestamp_sorted n acc h)

/-- sortedByTimestamp is sorted. -/
theorem sortedByTimestamp_sorted (l : List Notification) :
    TsSorted (sortedByTimestamp l) :=
  sort_fold_sorted l [] List.Pairwise.nil

/-- Two sorted permutations of each other with pairwise distinct
timestamps are equal lists. -/
theorem sorted_perm_unique :
    ∀ (l1 l2 : List Notification), l1.Perm l2 → TsSorted l1 → TsSorted l2 →
    l1.Pairwise (fun a b => a.timestamp ≠ b.timestamp) → l1 = l2 := by
  intro l1
  induction l1 with
  | nil =>
    intro l2 hp _ _ _
    exact hp.nil_eq
  | cons a t1 ih =>
    intro l2 hp hs1 hs2 hd
    cases l2 with
    | nil => exact absurd hp.symm.nil_eq (by simp)
    | cons b t2 =>
      rw [TsSorted, List.pairwise_cons] at hs1 hs2
      rw [List.pairwise_cons] at hd
      have hab : a = b := by
        have hain : a ∈ b :: t2 := hp.mem_iff.mp (List.mem_cons_self a t1)
        rcases List.mem_cons.mp hain with hh | hh
        · exact hh
        · have hbin : b ∈ a :: t1 := hp.symm.mem_iff.mp (List.mem_cons_self b t2)
          rcases List.mem_cons.mp hbin with hg | hg
          · exact hg.symm
          · have h1 : a.timestamp ≤ b.timestamp := hs1.1 b hg
            have h2 : b.timestamp ≤ a.timestamp := hs2.1 a hh
            exact absurd (le_antisymm h1 h2) (hd.1 b hg)
      subst hab
      have htail : t1.Perm t2 := hp.cons_inv
      rw [ih t2 htail hs1.2 hs2.2 hd.2]

/-- A Started notification sharing the timestamp of startedNotifDemo but
with a ready time one second later. -/
def startedNotifTieDemo : Notification :=
  { startedNotifDemo with ready_time := 116444736010000000 }

/-- C5 counterexample: the same three events in two input orders; the two
equal-timestamp Started events keep their (different) input order through
the stable sort, so the Cancelled event deletes a different extraction
and the final persisted states differ (the surviving ready times are 0
and 1 respectively). -/
theorem claim_C5_counterexample :
    ([startedNotifTieDemo, startedNotifDemo, cancelledNotifDemo] : List Notification).Perm
        [startedNotifDemo, startedNotifTieDemo, cancelledNotifDemo] ∧
      update_extractions_from_esi envLite demoState
          [startedNotifDemo, startedNotifTieDemo, cancelledNotifDemo] ≠
        update_extractions_from_esi envLite demoState
          [startedNotifTieDemo, startedNotifDemo, cancelledNotifDemo] := by
  have h1 : (update_extractions_from_esi envLite demoState
      [startedNotifDemo, startedNotifTieDemo, cancelledNotifDemo]).map
        (fun s => s.extractions.map (fun e => e.ready_time)) = some [0] := by
    with_unfolding_all decide
  have h2 : (update_extractions_from_esi envLite demoState
      [startedNotifTieDemo, startedNotifDemo, cancelledNotifDemo]).map
        (fun s => s.extractions.map (fun e => e.ready_time)) = some [1] := by
    with_unfolding_all decide
  refine ⟨List.Perm.swap _ _ _, fun h => ?_⟩
  rw [h, h2] at h1
  exact absurd h1 (by with_unfolding_all decide)

/-- C5 as amended: events are folded in ascending timestamp order with
ties broken by stable input order, so if the timestamps of a batch are
pairwise distinct, feeding any permutation of it yields the identical
final persisted state. -/
theorem claim_C5_order_invariance (env : EveEnv) (s : OwnerState)
    (l l' : List Notification) (hperm : l'.Perm l)
    (hd : l.Pairwise (fun a b => a.timestamp ≠ b.timestamp)) :
    update_extractions_from_esi env s l' = update_extractions_from_esi env s l := by
  have hperm2 : (sortedByTimestamp l').Perm (sortedByTimestamp l) :=
    ((sortedByTimestamp_perm l').trans hperm).trans (sortedByTimestamp_perm l).symm
  have hdist : (sortedByTimestamp l').Pairwise
      (fun a b => a.timestamp ≠ b.timestamp) := by
    refine (List.Perm.pairwise_iff ?_ ((sortedByTimestamp_perm l').trans hperm)).mpr hd
    intro x y hxy
    exact fun he => hxy he.symm
  have hsort : sortedByTimestamp l' = sortedByTimestamp l :=
    sorted_perm_unique (sortedByTimestamp l') (sortedByTimestamp l) hperm2
      (sortedByTimestamp_sorted l') (sortedByTimestamp_sorted l) hdist
  unfold update_extractions_from_esi
  rw [hsort]

/-- Witness for C5 at a concrete two-event batch with distinct timestamps
fed in the two possible orders. -/
theorem claim_C5_witness :
    update_extractions_from_esi envLite demoState
        [cancelledNotifDemo, startedNotifDemo] =
      update_extractions_from_esi envLite demoState
        [startedNotifDemo, cancelledNotifDemo] :=
  claim_C5_order_invariance envLite demoState
    [startedNotifDemo, cancelledNotifDemo]
    [cancelledNotifDemo, startedNotifDemo]
    (List.Perm.swap _ _ _) (by decide)

/-- C3 as amended: the converted payload instant is tick-granular, not
second-granular: distinct tick counts always convert to distinct
instants (even within the same whole second), rounding to whole seconds
happens only in CalculatedExtraction (whose post-init rounds ready_time),
and the reconstructor upserts a Started notification under the key
(structure, unrounded instant), where a row is then found. -/
theorem claim_C3_unrounded_key (t1 t2 : Nat) (h12 : t1 ≠ t2)
    (c : CalculatedExtraction) :
    ldap_time_2_datetime t1 ≠ ldap_time_2_datetime t2 ∧
    (CalculatedExtraction.post_init c).ready_time = round_seconds c.ready_time ∧
    ∀ (env : EveEnv) (ps : ProcState) (n : Notification),
      n.notif_type = NotifType.started →
      (refineryLookup ps.st.refineries n.structure_id).isSome = true →
      ∃ ps2, process_notification env ps n = some ps2 ∧
        (lookupExtraction ps2.st.extractions
          (n.structure_id, ldap_time_2_datetime n.ready_time)).isSome = true := by
  refine ⟨?_, rfl, ?_⟩
  · intro heq
    apply h12
    unfold ldap_time_2_datetime at heq
    have h1 : (t1 : ℚ) / 10000000 = (t2 : ℚ) / 10000000 := sub_left_inj.mp heq
    field_simp at h1
    exact_mod_cast h1
  · intro env ps n hn hr
    have hsome : (process_notification env ps n).isSome = true := by
      rw [step_isSome_eq]
      simp only [stepOk, hn]
    obtain ⟨ps2, hps2⟩ := Option.isSome_iff_exists.mp hsome
    obtain ⟨_, hexts, _, _⟩ := step_char env ps ps2 n hps2
    refine ⟨ps2, hps2, ?_⟩
    rw [hexts]
    simp only [stepExtractions, hn]
    rw [if_pos hr]
    show (lookupExtraction (upsertStarted env ps.st.extractions n) (notifKey n)).isSome = true
    rw [lookupExtraction_upsert_kApply, if_pos rfl]
    rfl

/-- A concrete CalculatedExtraction whose ready time carries a fraction
of a second. -/
def cDemo : CalculatedExtraction where
  refinery_id := 1
  ready_time := 5 / 2
  status := CalculatedExtractionStatus.STARTED
  started_by := some 1001
  auto_time := none
  canceled_at := none
  canceled_by := none
  finished_at := none
  fractured_at := none
  fractured_by := none
  products := none

/-- Witness for C3 at concrete tick counts 0 and 1 and a concrete
CalculatedExtraction. -/
theorem claim_C3_witness :
    ldap_time_2_datetime 0 ≠ ldap_time_2_datetime 1 ∧
    (CalculatedExtraction.post_init cDemo).ready_time = round_seconds cDemo.ready_time ∧
    ∀ (env : EveEnv) (ps : ProcState) (n : Notification),
      n.notif_type = NotifType.started →
      (refineryLookup ps.st.refineries n.structure_id).isSome = true →
      ∃ ps2, process_notification env ps n = some ps2 ∧
        (lookupExtraction ps2.st.extractions
          (n.structure_id, ldap_time_2_datetime n.ready_time)).isSome = true :=
  claim_C3_unrounded_key 0 1 (by decide) cDemo

/-! ## Refinery update lemmas -/

/-- Lookup commutes with an id-preserving per-row map. -/
theorem refineryLookup_map_presId (g : RefineryRec → RefineryRec)
    (hg : ∀ r, (g r).id = r.id) (refs : List RefineryRec) (sid : Nat) :
    refineryLookup (refs.map g) sid = (refineryLookup refs sid).map g := by
  induction refs with
  | nil => rfl
  | cons r rest ih =>
    rw [List.map_cons, refineryLookup, hg r, refineryLookup]
    by_cases h : r.id = sid
    · rw [if_pos h, if_pos h, Option.map_some']
    · rw [if_neg h, if_neg h]
      exact ih

/-- Lookup across an append of a single refinery row. -/
theorem refineryLookup_append_single (refs : List RefineryRec)
    (r0 : RefineryRec) (sid : Nat) :
    refineryLookup (refs ++ [r0]) sid =
      match refineryLookup refs sid with
      | some x => some x
      | none => if r0.id = sid then some r0 else none := by
  induction refs with
  | nil => rfl
  | cons x rest ih =>
    rw [List.cons_append, refineryLookup, refineryLookup]
    by_cases h : x.id = sid
    · rw [if_pos h, if_pos h]
    · rw [if_neg h, if_neg h]
      exact ih

/-- The any() check of the refinery upsert agrees with the lookup. -/
theorem any_id_eq_lookup_isSome (refs : List RefineryRec) (sid : Nat) :
    refs.any (fun r => r.id == sid) = (refineryLookup refs sid).isSome := by
  induction refs with
  | nil => rfl
  | cons r rest ih =>
    rw [List.any_cons, refineryLookup]
    by_cases h : r.id = sid
    · simp [h]
    · have hb : (r.id == sid) = false := beq_eq_false_iff_ne.mpr h
      rw [hb, Bool.false_or, if_neg h]
      exact ih

/-- The refinery upsert does not touch rows of other ids. -/
theorem update_or_create_refinery_other (refs : List RefineryRec) (sid : Nat)
    (info : StructureInfo) (u : Nat) (hu : u ≠ sid) :
    refineryLookup (update_or_create_refinery refs sid info) u =
      refineryLookup refs u := by
  unfold update_or_create_refinery
  cases hany : refs.any (fun r => r.id == sid) with
  | true =>
    rw [if_pos rfl]
    rw [refineryLookup_map_presId _ (fun r => by
      by_cases h : r.id = sid
      · rw [if_pos h]
      · rw [if_neg h])]
    cases hl : refineryLookup refs u with
    | none => rfl
    | some r =>
      have hr : r.id = u := refineryLookup_id hl
      rw [Option.map_some', if_neg (fun h : r.id = sid => hu (hr ▸ h))]
  | false =>
    simp only [Bool.false_eq_true, if_false]
    rw [refineryLookup_append_single]
    cases hl : refineryLookup refs u with
    | none => simp only; rw [if_neg (fun h : sid = u => hu h.symm)]
    | some r => rfl

/-- The moon resolution does not touch rows of other ids. -/
theorem update_moon_from_structure_info_other (senv : StructureEnv)
    (refs : List RefineryRec) (sid : Nat) (info : StructureInfo) (u : Nat)
    (hu : u ≠ sid) :
    refineryLookup (update_moon_from_structure_info senv refs sid info) u =
      refineryLookup refs u := by
  unfold update_moon_from_structure_info
  cases senv.nearest_celestial info.solar_system_id info.pos_x info.pos_y info.pos_z with
  | error e => rfl
  | ok nearest =>
    cases nearest with
    | none => rfl
    | some c =>
      dsimp only
      by_cases ht : c.eve_type_id = EVE_TYPE_ID_MOON
      · rw [if_pos ht]
        rw [refineryLookup_map_presId _ (fun r => by
          by_cases h : r.id = sid
          · rw [if_pos h]
          · rw [if_neg h])]
        cases hl : refineryLookup refs u with
        | none => rfl
        | some r =>
          have hr : r.id = u := refineryLookup_id hl
          rw [Option.map_some', if_neg (fun h : r.id = sid => hu (hr ▸ h))]
      · rw [if_neg ht]

/-- One structure update does not touch rows of other ids. -/
theorem refinery_step_other (senv : StructureEnv) (refs : List RefineryRec)
    (sid u : Nat) (hu : u ≠ sid) :
    refineryLookup (update_or_create_refinery_from_esi senv refs sid) u =
      refineryLookup refs u := by
  unfold update_or_create_refinery_from_esi
  cases senv.fetchStructureInfo sid with
  | error e => rfl
  | ok info =>
    dsimp only
    cases refineryLookup (update_or_create_refinery refs sid info) sid with
    | none => exact update_or_create_refinery_other refs sid info u hu
    | some r =>
      dsimp only
      by_cases hm : r.moon = none
      · rw [if_pos hm]
        rw [update_moon_from_structure_info_other senv _ sid info u hu]
        exact update_or_create_refinery_other refs sid info u hu
      · rw [if_neg hm]
        exact update_or_create_refinery_other refs sid info u hu

/-- The refinery upsert puts the updated or created row under its id. -/
theorem update_or_create_refinery_self (refs : List RefineryRec) (sid : Nat)
    (info : StructureInfo) :
    refineryLookup (update_or_create_refinery refs sid info) sid =
      some (match refineryLookup refs sid with
        | some r0 => { r0 with name := info.name, eve_type_id := info.type_id }
        | none => { id := sid, name := info.name, eve_type_id := info.type_id,
                    moon := none }) := by
  unfold update_or_create_refinery
  cases hany : refs.any (fun r => r.id == sid) with
  | true =>
    rw [if_pos rfl]
    rw [refineryLookup_map_presId _ (fun r => by
      by_cases h : r.id = sid
      · rw [if_pos h]
      · rw [if_neg h])]
    rw [any_id_eq_lookup_isSome] at hany
    cases hl : refineryLookup refs sid with
    | none => rw [hl] at hany; cases hany
    | some r0 =>
      rw [Option.map_some', if_pos (refineryLookup_id hl)]
  | false =>
    simp only [Bool.false_eq_true, if_false]
    rw [refineryLookup_append_single]
    rw [any_id_eq_lookup_isSome] at hany
    cases hl : refineryLookup refs sid with
    | none => rw [if_pos rfl]
    | some r0 => rw [hl] at hany; cases hany

/-- The effect of one structure update on its own refinery row: fetch
failure keeps the previous row, otherwise the row is upserted and, when
it has no moon link, the moon is resolved from the structure position
with a transient failure leaving the link empty. -/
def refineryStepFn (senv : StructureEnv) (sid : Nat) (v : Option RefineryRec) :
    Option RefineryRec :=
  match senv.fetchStructureInfo sid with
  | .error _ => v
  | .ok info =>
    let r := match v with
      | some r0 => { r0 with name := info.name, eve_type_id := info.type_id }
      | none => { id := sid, name := info.name, eve_type_id := info.type_id,
                  moon := none }
    if r.moon = none then
      match senv.nearest_celestial info.solar_system_id info.pos_x info.pos_y
          info.pos_z with
      | .error _ => some r
      | .ok (some c) =>
        if c.eve_type_id = EVE_TYPE_ID_MOON then
          some { r with moon := some c.eve_object_id }
        else some r
      | .ok none => some r
    else some r

/-- The moon resolution on the row of the processed id. -/
theorem update_moon_from_structure_info_self (senv : StructureEnv)
    (refs : List RefineryRec) (sid : Nat) (info : StructureInfo) :
    refineryLookup (update_moon_from_structure_info senv refs sid info) sid =
      match senv.nearest_celestial info.solar_system_id info.pos_x info.pos_y
          info.pos_z with
      | .error _ => refineryLookup refs sid
      | .ok (some c) =>
        if c.eve_type_id = EVE_TYPE_ID_MOON then
          (refineryLookup refs sid).map (fun r => { r with moon := some c.eve_object_id })
        else refineryLookup refs sid
      | .ok none => refineryLookup refs sid := by
  unfold update_moon_from_structure_info
  cases senv.nearest_celestial info.solar_system_id info.pos_x info.pos_y info.pos_z with
  | error e => rfl
  | ok nearest =>
    cases nearest with
    | none => rfl
    | some c =>
      dsimp only
      by_cases ht : c.eve_type_id = EVE_TYPE_ID_MOON
      · rw [if_pos ht, if_pos ht]
        rw [refineryLookup_map_presId _ (fun r => by
          by_cases h : r.id = sid
          · rw [if_pos h]
          · rw [if_neg h])]
        cases hl : refineryLookup refs sid with
        | none => rfl
        | some r =>
          rw [Option.map_some', Option.map_some', if_pos (refineryLookup_id hl)]
      · rw [if_neg ht, if_neg ht]

/-- One structure update acts on its own row exactly as refineryStepFn. -/
theorem refinery_step_self (senv : StructureEnv) (refs : List RefineryRec)
    (sid : Nat) :
    refineryLookup (update_or_create_refinery_from_esi senv refs sid) sid =
      refineryStepFn senv sid (refineryLookup refs sid) := by
  unfold update_or_create_refinery_from_esi refineryStepFn
  cases hf : senv.fetchStructureInfo sid with
  | error e => rfl
  | ok info =>
    dsimp only
    rw [update_or_create_refinery_self refs sid info]
    cases hl : refineryLookup refs sid with
    | some r0 =>
      dsimp only
      by_cases hm : r0.moon = none
      · rw [if_pos hm, if_pos hm]
        rw [update_moon_from_structure_info_self senv _ sid info,
          update_or_create_refinery_self refs sid info, hl]
        cases senv.nearest_celestial info.solar_system_id info.pos_x info.pos_y
            info.pos_z with
        | error e => rfl
        | ok nearest =>
          cases nearest with
          | none => rfl
          | some c =>
            dsimp only
            by_cases ht : c.eve_type_id = EVE_TYPE_ID_MOON
            · rw [if_pos ht, if_pos ht, Option.map_some']
            · rw [if_neg ht, if_neg ht]
      · rw [if_neg hm, if_neg hm,
          update_or_create_refinery_self refs sid info, hl]
    | none =>
      dsimp only
      rw [if_pos rfl, if_pos rfl]
      rw [update_moon_from_structure_info_self senv _ sid info,
        update_or_create_refinery_self refs sid info, hl]
      cases senv.nearest_celestial info.solar_system_id info.pos_x info.pos_y
          info.pos_z with
      | error e => rfl
      | ok nearest =>
        cases nearest with
        | none => rfl
        | some c =>
          dsimp only
          by_cases ht : c.eve_type_id = EVE_TYPE_ID_MOON
          · rw [if_pos ht, if_pos ht, Option.map_some']
          · rw [if_neg ht, if_neg ht]

/-- Lookup through the final delete of refineries absent from the fetched
id list. -/
theorem refineryLookup_filter_contains (refs : List RefineryRec)
    (ids : List Nat) (u : Nat) :
    refineryLookup (refs.filter (fun r => ids.contains r.id)) u =
      if ids.contains u = true then refineryLookup refs u else none := by
  induction refs with
  | nil =>
    by_cases h : ids.contains u = true <;> simp [refineryLookup, h]
  | cons r rest ih =>
    rw [List.filter_cons]
    by_cases hcr : ids.contains r.id = true
    · rw [if_pos hcr]
      by_cases hr : r.id = u
      · subst hr
        rw [refineryLookup, if_pos rfl, if_pos hcr, refineryLookup, if_pos rfl]
      · rw [refineryLookup, if_neg hr, ih]
        by_cases hcu : ids.contains u = true
        · rw [if_pos hcu, if_pos hcu, refineryLookup, if_neg hr]
        · rw [if_neg hcu, if_neg hcu]
    · rw [if_neg hcr, ih]
      by_cases hr : r.id = u
      · subst hr
        rw [if_neg hcr, if_neg hcr]
      · by_cases hcu : ids.contains u = true
        · rw [if_pos hcu, if_pos hcu, refineryLookup, if_neg hr]
        · rw [if_neg hcu, if_neg hcu]

/-- A structure whose details fetch fails is left untouched by the whole
update loop. -/
theorem refinery_fold_error (senv : StructureEnv) (s : Nat)
    (hf : senv.fetchStructureInfo s = Except.error ()) :
    ∀ (ids : List Nat) (acc : List RefineryRec),
    refineryLookup
        (ids.foldl (fun a i => update_or_create_refinery_from_esi senv a i) acc) s =
      refineryLookup acc s := by
  intro ids
  induction ids with
  | nil => intro acc; rfl
  | cons i rest ih =>
    intro acc
    rw [List.foldl_cons]
    by_cases hi : i = s
    · subst hi
      have hstep : update_or_create_refinery_from_esi senv acc i = acc := by
        unfold update_or_create_refinery_from_esi
        rw [hf]
      rw [hstep]
      exact ih acc
    · rw [ih]
      exact refinery_step_other senv acc i s (fun h => hi h.symm)

/-- refineryStepFn only consults the environment at its own structure
id. -/
theorem refineryStepFn_congr (senv senv' : StructureEnv) (i : Nat)
    (hf : senv'.fetchStructureInfo i = senv.fetchStructureInfo i)
    (hn : senv'.nearest_celestial = senv.nearest_celestial)
    (v : Option RefineryRec) :
    refineryStepFn senv' i v = refineryStepFn senv i v := by
  unfold refineryStepFn
  rw [hf, hn]

/-- Changing the environment of a single structure id changes no other
refinery row of the update loop. -/
theorem refinery_fold_congr (senv senv' : StructureEnv) (s : Nat)
    (hfetch : ∀ t, t ≠ s → senv'.fetchStructureInfo t = senv.fetchStructureInfo t)
    (hnear : senv'.nearest_celestial = senv.nearest_celestial) :
    ∀ (ids : List Nat) (acc acc' : List RefineryRec),
    (∀ u, u ≠ s → refineryLookup acc' u = refineryLookup acc u) →
    ∀ u, u ≠ s →
    refineryLookup
        (ids.foldl (fun a i => update_or_create_refinery_from_esi senv' a i) acc') u =
      refineryLookup
        (ids.foldl (fun a i => update_or_create_refinery_from_esi senv a i) acc) u := by
  intro ids
  induction ids with
  | nil => intro acc acc' hinv u hu; exact hinv u hu
  | cons i rest ih =>
    intro acc acc' hinv u hu
    rw [List.foldl_cons, List.foldl_cons]
    refine ih (update_or_create_refinery_from_esi senv acc i)
      (update_or_create_refinery_from_esi senv' acc' i) ?_ u hu
    intro w hw
    by_cases hwi : w = i
    · subst hwi
      rw [refinery_step_self senv' acc' w, refinery_step_self senv acc w]
      rw [refineryStepFn_congr senv senv' w (hfetch w hw) hnear]
      rw [hinv w hw]
    · rw [refinery_step_other senv' acc' i w hwi,
        refinery_step_other senv acc i w hwi]
      exact hinv w hw

/-- C9: a transient OSError is scoped to one structure.  First, a failing
structure details fetch leaves that refinery row exactly as it was (and
the row survives the final cleanup when the id is still listed).  Second,
a failing nearest-celestial lookup makes update_moon_from_structure_info
return with no state change at all, so a refinery without a moon link
keeps none.  Third, failing one structure changes nothing about any other
structure of the batch: every other refinery row of the update is
identical to what it would have been without the failure. -/
theorem claim_C9_oserror_scoped :
    (∀ (senv : StructureEnv) (refs : List RefineryRec) (ids : List Nat) (s : Nat),
      senv.fetchStructureInfo s = Except.error () → ids.contains s = true →
      refineryLookup (update_refineries_from_esi senv refs ids) s =
        refineryLookup refs s) ∧
    (∀ (senv : StructureEnv) (refs : List RefineryRec) (sid : Nat)
        (info : StructureInfo),
      senv.nearest_celestial info.solar_system_id info.pos_x info.pos_y
          info.pos_z = Except.error () →
      update_moon_from_structure_info senv refs sid info = refs) ∧
    (∀ (senv senv' : StructureEnv) (refs : List RefineryRec) (ids : List Nat)
        (s : Nat),
      (∀ t, t ≠ s → senv'.fetchStructureInfo t = senv.fetchStructureInfo t) →
      senv'.nearest_celestial = senv.nearest_celestial →
      ∀ u, u ≠ s →
      refineryLookup (update_refineries_from_esi senv' refs ids) u =
        refineryLookup (update_refineries_from_esi senv refs ids) u) := by
  refine ⟨?_, ?_, ?_⟩
  · intro senv refs ids s hf hc
    unfold update_refineries_from_esi
    rw [refineryLookup_filter_contains, if_pos hc]
    exact refinery_fold_error senv s hf ids refs
  · intro senv refs sid info hn
    unfold update_moon_from_structure_info
    rw [hn]
  · intro senv senv' refs ids s hfetch hnear u hu
    unfold update_refineries_from_esi
    rw [refineryLookup_filter_contains, refineryLookup_filter_contains]
    cases hcu : ids.contains u with
    | false => simp only [Bool.false_eq_true, if_false]
    | true =>
      rw [if_pos rfl, if_pos rfl]
      exact refinery_fold_congr senv senv' s hfetch hnear ids refs refs
        (fun w hw => rfl) u hu

/-- The structure environment of the witness: details for structure 2
fail with OSError, the nearest-celestial lookup always fails. -/
def senvDemo : StructureEnv where
  fetchStructureInfo := fun sid =>
    if sid = 2 then Except.error ()
    else Except.ok { name := "S", type_id := 35835, solar_system_id := 30002537,
                     pos_x := 1, pos_y := 2, pos_z := 3 }
  nearest_celestial := fun _ _ _ _ => Except.error ()

/-- The refinery table of the witness. -/
def refsDemo : List RefineryRec :=
  [{ id := 2, name := "Old", eve_type_id := 35835, moon := none }]

/-- Witness for C9: the failing structure 2 keeps its old row across the
whole update, and a failing nearest-celestial lookup leaves the state
untouched. -/
theorem claim_C9_witness :
    refineryLookup (update_refineries_from_esi senvDemo refsDemo [1, 2]) 2 =
        refineryLookup refsDemo 2 ∧
      update_moon_from_structure_info senvDemo refsDemo 1
          { name := "S", type_id := 35835, solar_system_id := 30002537,
            pos_x := 1, pos_y := 2, pos_z := 3 } = refsDemo :=
  ⟨claim_C9_oserror_scoped.1 senvDemo refsDemo [1, 2] 2 rfl (by decide),
    claim_C9_oserror_scoped.2.1 senvDemo refsDemo 1 _ rfl⟩
